import Mathlib

/-!
Verification of the checkers decision core (board rules, move generation,
alpha-beta search, static evaluator, move-quality classifier) against its
natural-language specification.  The Python source is shallowly embedded:
the 8×8 board is a list of lists of optional pieces, Python list indexing
(negative wrap-around, IndexError out of range) is modelled explicitly, and
the possibly non-terminating recursive search is given explicit fuel, with
`none` standing for a run that did not complete.
-/

namespace Checkers

/-- The two sides, `'red'` and `'blue'` in the source. -/
inductive Color where
  | red
  | blue
  deriving DecidableEq, Repr

/-- A piece: colour, its own row/col coordinates, and the promotion flag
(`Piece.__init__` in piece.py). -/
structure Piece where
  color : Color
  row : Int
  col : Int
  is_king : Bool
  deriving DecidableEq, Repr

/-- The board grid `self.board`: a Python list of 8 lists of 8 optional pieces. -/
abbrev Grid := List (List (Option Piece))

/-- Structural well-formedness of a grid: 8 rows of 8 cells. -/
def WF (g : Grid) : Prop := g.length = 8 ∧ ∀ row ∈ g, row.length = 8

instance (g : Grid) : Decidable (WF g) := by unfold WF; infer_instance

/-- Raw in-range read of a grid cell `board[r][c]` for `0 ≤ r, c` (a missing
row or cell reads as empty; the source only does such reads behind bounds
checks on 8×8 grids, where this is exact). -/
def gridGet (g : Grid) (r c : Nat) : Option Piece :=
  ((g.get? r).bind fun rowL => rowL.get? c).join

/-- Raw in-range write of a grid cell. -/
def gridSet (g : Grid) (r c : Nat) (v : Option Piece) : Grid :=
  g.set r (((g.get? r).getD []).set c v)

/-- The spec's board invariant: every occupied cell's stored piece has
matching row/col coordinates. -/
def Coherent (g : Grid) : Prop :=
  ∀ r, r < 8 → ∀ c, c < 8 →
    ((gridGet g r c).all fun p => decide (p.row = (r : Int) ∧ p.col = (c : Int))) = true

instance (g : Grid) : Decidable (Coherent g) := by
  unfold Coherent
  exact Nat.decidableBallLT _ _

/-! ## Python list indexing semantics

`l[i]` wraps negative indices by adding `len(l)` and raises `IndexError`
(modelled as `none`) when the index is out of range on both readings. -/

/-- Python read `l[i]`. -/
def pyGet {α : Type} (l : List α) (i : Int) : Option α :=
  if 0 ≤ i then
    if i < (l.length : Int) then l.get? i.toNat else none
  else
    if 0 ≤ i + (l.length : Int) then l.get? (i + (l.length : Int)).toNat else none

/-- Python write `l[i] = v`. -/
def pySet {α : Type} (l : List α) (i : Int) (v : α) : Option (List α) :=
  if 0 ≤ i then
    if i < (l.length : Int) then some (l.set i.toNat v) else none
  else
    if 0 ≤ i + (l.length : Int) then some (l.set (i + (l.length : Int)).toNat v) else none

/-- Python read `board[r][c]`. -/
def pyCellGet (g : Grid) (r c : Int) : Option (Option Piece) :=
  (pyGet g r).bind fun rowL => pyGet rowL c

/-- Python write `board[r][c] = v`. -/
def pyCellSet (g : Grid) (r c : Int) (v : Option Piece) : Option Grid :=
  (pyGet g r).bind fun rowL => (pySet rowL c v).bind fun rowL2 => pySet g r rowL2

/-! ## Board accessors (board.py) -/

/-- `Board.get_piece`: bounds-checked read, out of range returns `None`. -/
def get_piece (g : Grid) (row col : Int) : Option Piece :=
  if 0 ≤ row ∧ row < 8 ∧ 0 ≤ col ∧ col < 8 then gridGet g row.toNat col.toNat
  else none

/-- `Board.set_piece`: bounds-checked write, no-op out of range; also
rewrites the stored piece's own coordinates to the slot. -/
def set_piece (g : Grid) (row col : Int) (p : Option Piece) : Grid :=
  if 0 ≤ row ∧ row < 8 ∧ 0 ≤ col ∧ col < 8 then
    gridSet g row.toNat col.toNat (p.map fun q => { q with row := row, col := col })
  else g

/-- `Board.move_piece`: unchecked relocation using raw Python indexing.
Returns the captured piece (if the displacement is two rows) together with
the updated grid; `none` models a raised `IndexError`. -/
def move_piece (g : Grid) (from_pos to_pos : Int × Int) : Option (Grid × Option Piece) :=
  let from_row := from_pos.1
  let from_col := from_pos.2
  let to_row := to_pos.1
  let to_col := to_pos.2
  (pyCellGet g from_row from_col).bind fun cell =>
    match cell with
    | none => some (g, none)
    | some piece =>
      let step1 : Option (Grid × Option Piece) :=
        if (to_row - from_row).natAbs = 2 then
          let captured_row := (from_row + to_row).fdiv 2
          let captured_col := (from_col + to_col).fdiv 2
          (pyCellGet g captured_row captured_col).bind fun captured =>
            (pyCellSet g captured_row captured_col none).map fun g2 => (g2, captured)
        else some (g, none)
      step1.bind fun s =>
        (pyCellSet s.1 to_row to_col
            (some { piece with row := to_row, col := to_col })).bind fun g3 =>
          (pyCellSet g3 from_row from_col none).map fun g4 => (g4, s.2)

/-! ## Piece move generation (piece.py) -/

/-- The diagonal direction set of a piece: all four for kings, the two
forward ones for men (red moves up, blue moves down). -/
def piece_directions (p : Piece) : List (Int × Int) :=
  if p.is_king then [(-1, -1), (-1, 1), (1, -1), (1, 1)]
  else if p.color = Color.red then [(-1, -1), (-1, 1)]
  else [(1, -1), (1, 1)]

/-- `Piece.get_possible_moves`: one-step moves onto empty squares, plus a
jump over an adjacent enemy onto an empty in-bounds landing square. -/
def get_possible_moves (p : Piece) (g : Grid) : List (Int × Int) :=
  (piece_directions p).filterMap fun d =>
    let new_row := p.row + d.1
    let new_col := p.col + d.2
    if 0 ≤ new_row ∧ new_row < 8 ∧ 0 ≤ new_col ∧ new_col < 8 then
      match get_piece g new_row new_col with
      | none => some (new_row, new_col)
      | some target =>
        if target.color ≠ p.color then
          let jump_row := new_row + d.1
          let jump_col := new_col + d.2
          if 0 ≤ jump_row ∧ jump_row < 8 ∧ 0 ≤ jump_col ∧ jump_col < 8 ∧
              get_piece g jump_row jump_col = none then
            some (jump_row, jump_col)
          else none
        else none
    else none

/-- `Piece.get_capture_moves`: only the jumping subset. -/
def get_capture_moves (p : Piece) (g : Grid) : List (Int × Int) :=
  (piece_directions p).filterMap fun d =>
    let enemy_row := p.row + d.1
    let enemy_col := p.col + d.2
    if 0 ≤ enemy_row ∧ enemy_row < 8 ∧ 0 ≤ enemy_col ∧ enemy_col < 8 then
      match get_piece g enemy_row enemy_col with
      | some enemy =>
        if enemy.color ≠ p.color then
          let jump_row := enemy_row + d.1
          let jump_col := enemy_col + d.2
          if 0 ≤ jump_row ∧ jump_row < 8 ∧ 0 ≤ jump_col ∧ jump_col < 8 ∧
              get_piece g jump_row jump_col = none then
            some (jump_row, jump_col)
          else none
        else none
      | none => none
    else none

/-! ## Move enumeration (board.py) -/

/-- A move as returned by `Board.get_all_moves`: `(from, to)`. -/
abbrev Move := (Int × Int) × (Int × Int)

/-- The capture-move pass of `Board.get_all_moves`. -/
def side_capture_moves (g : Grid) (player : Color) : List Move :=
  (List.range 8).flatMap fun row => (List.range 8).flatMap fun col =>
    match gridGet g row col with
    | some piece =>
      if piece.color = player then
        (get_capture_moves piece g).map fun capture_pos =>
          (((row : Int), (col : Int)), capture_pos)
      else []
    | none => []

/-- The regular-move pass of `Board.get_all_moves`. -/
def side_regular_moves (g : Grid) (player : Color) : List Move :=
  (List.range 8).flatMap fun row => (List.range 8).flatMap fun col =>
    match gridGet g row col with
    | some piece =>
      if piece.color = player then
        (get_possible_moves piece g).map fun move_pos =>
          (((row : Int), (col : Int)), move_pos)
      else []
    | none => []

/-- `Board.get_all_moves`: if any capture exists, only the captures;
otherwise all regular moves. -/
def get_all_moves (g : Grid) (player : Color) : List Move :=
  let capture_moves := side_capture_moves g player
  if capture_moves = [] then side_regular_moves g player else capture_moves

/-- `Board.has_valid_moves`. -/
def has_valid_moves (g : Grid) (player : Color) : Bool :=
  decide (0 < (get_all_moves g player).length)

/-- `Board.count_pieces`. -/
def count_pieces (g : Grid) (color : Color) : Nat :=
  ((List.range 8).map fun row =>
    ((List.range 8).map fun col =>
      match gridGet g row col with
      | some piece => if piece.color = color then 1 else 0
      | none => 0).sum).sum

/-- `Board.is_game_over`: a side out of pieces, or a side with no moves. -/
def is_game_over (g : Grid) : Bool :=
  let red_pieces := count_pieces g Color.red
  let blue_pieces := count_pieces g Color.blue
  if red_pieces = 0 ∨ blue_pieces = 0 then true
  else if ¬ has_valid_moves g Color.red ∨ ¬ has_valid_moves g Color.blue then true
  else false

/-- `Board.setup_initial_position`: red men on the dark squares of rows
5–7, blue men on the dark squares of rows 0–2. -/
def setup_initial_position : Grid :=
  (List.range 8).map fun row => (List.range 8).map fun col =>
    if 5 ≤ row ∧ (row + col) % 2 = 1 then some ⟨Color.red, row, col, false⟩
    else if row < 3 ∧ (row + col) % 2 = 1 then some ⟨Color.blue, row, col, false⟩
    else none

/-- `Board.is_valid_move`. -/
def is_valid_move (g : Grid) (from_pos to_pos : Int × Int) (player : Color) : Bool :=
  let from_row := from_pos.1
  let from_col := from_pos.2
  let to_row := to_pos.1
  let to_col := to_pos.2
  if ¬ (0 ≤ from_row ∧ from_row < 8 ∧ 0 ≤ from_col ∧ from_col < 8 ∧
        0 ≤ to_row ∧ to_row < 8 ∧ 0 ≤ to_col ∧ to_col < 8) then false
  else
    match gridGet g from_row.toNat from_col.toNat with
    | none => false
    | some piece =>
      if piece.color ≠ player then false
      else if (gridGet g to_row.toNat to_col.toNat).isSome then false
      else if (to_row - from_row).natAbs ≠ (to_col - from_col).natAbs then false
      else
        let distance := (to_row - from_row).natAbs
        if distance = 1 then
          if piece.is_king then true
          else if piece.color = Color.red ∧ to_row < from_row then true
          else if piece.color = Color.blue ∧ from_row < to_row then true
          else false
        else if distance = 2 then
          let captured_row := (from_row + to_row).fdiv 2
          let captured_col := (from_col + to_col).fdiv 2
          match gridGet g captured_row.toNat captured_col.toNat with
          | some captured_piece => decide (captured_piece.color ≠ player)
          | none => false
        else false

/-! ## Position evaluator (evaluator.py) -/

def PAWN_VALUE : Int := 100
def KING_VALUE : Int := 300
def CENTER_CONTROL_BONUS : Int := 10
def BACK_RANK_BONUS : Int := 20
def SIDE_CONTROL_BONUS : Int := 5
def MOBILITY_WEIGHT : Int := 2
def CAPTURE_THREAT_WEIGHT : Int := 15
def KING_PROMOTION_THREAT_WEIGHT : Int := 25

/-- `PositionEvaluator._evaluate_terminal_position`. -/
def evaluate_terminal_position (g : Grid) (player : Color) : Int :=
  let red_pieces := count_pieces g Color.red
  let blue_pieces := count_pieces g Color.blue
  if red_pieces = 0 then (if player = Color.red then -10000 else 10000)
  else if blue_pieces = 0 then (if player = Color.red then 10000 else -10000)
  else 0

/-- `PositionEvaluator._evaluate_material`. -/
def evaluate_material (g : Grid) (player : Color) : Int :=
  ((List.range 8).map fun row =>
    ((List.range 8).map fun col =>
      match get_piece g row col with
      | some piece =>
        let piece_value := if piece.is_king then KING_VALUE else PAWN_VALUE
        if piece.color = player then piece_value else -piece_value
      | none => 0).sum).sum

/-- `PositionEvaluator._evaluate_position`. -/
def evaluate_position_bonus (g : Grid) (player : Color) : Int :=
  ((List.range 8).map fun row =>
    ((List.range 8).map fun col =>
      match get_piece g row col with
      | some piece =>
        if piece.color = player then
          (if 2 ≤ row ∧ row ≤ 5 ∧ 2 ≤ col ∧ col ≤ 5 then CENTER_CONTROL_BONUS else 0) +
          (if piece.is_king ∧ ((player = Color.red ∧ row = 7) ∨
              (player = Color.blue ∧ row = 0)) then BACK_RANK_BONUS else 0) +
          (if col = 0 ∨ col = 7 then SIDE_CONTROL_BONUS else 0)
        else 0
      | none => 0).sum).sum

/-- `PositionEvaluator._evaluate_mobility`. -/
def evaluate_mobility (g : Grid) (player : Color) : Int :=
  let moves := get_all_moves g player
  let mobility_score := (moves.length : Int) * MOBILITY_WEIGHT
  let capture_moves := moves.filter fun move => (move.2.1 - move.1.1).natAbs = 2
  mobility_score + (capture_moves.length : Int) * CAPTURE_THREAT_WEIGHT

/-- `PositionEvaluator._evaluate_threats`. -/
def evaluate_threats (g : Grid) (player : Color) : Int :=
  ((List.range 8).map fun row =>
    ((List.range 8).map fun col =>
      match get_piece g row col with
      | some piece =>
        if piece.color = player then
          ((get_capture_moves piece g).length : Int) * CAPTURE_THREAT_WEIGHT
        else 0
      | none => 0).sum).sum

/-- `PositionEvaluator._evaluate_promotion_threats`. -/
def evaluate_promotion_threats (g : Grid) (player : Color) : Int :=
  ((List.range 8).map fun row =>
    ((List.range 8).map fun col =>
      match get_piece g row col with
      | some piece =>
        if piece.color = player ∧ ¬ piece.is_king then
          if (player = Color.red ∧ row ≤ 2) ∨ (player = Color.blue ∧ 5 ≤ row) then
            KING_PROMOTION_THREAT_WEIGHT
          else 0
        else 0
      | none => 0).sum).sum

/-- `PositionEvaluator.evaluate`. -/
def evaluate (g : Grid) (player : Color) : Int :=
  if is_game_over g then evaluate_terminal_position g player
  else
    evaluate_material g player + evaluate_position_bonus g player +
      evaluate_mobility g player + evaluate_threats g player +
      evaluate_promotion_threats g player

/-! ## Search engine (ai.py)

Scores live in the integers extended with the two infinities used for the
initial alpha/beta window (`float('-inf')`, `float('inf')`). -/

abbrev EInt := WithBot (WithTop Int)

/-- Embed an integer score. -/
def toE (z : Int) : EInt := ((z : WithTop Int) : EInt)

/-- The opponent of a player (`'blue' if player == 'red' else 'red'`). -/
def opponent (player : Color) : Color :=
  if player = Color.red then Color.blue else Color.red

/-- The promotion rank for a player: row 0 for red, row 7 for blue. -/
def king_row (player : Color) : Int := if player = Color.red then 0 else 7

/-- `make_king` applied to the piece object stored at a cell. -/
def promote_at (g : Grid) (to_pos : Int × Int) : Grid :=
  if 0 ≤ to_pos.1 ∧ to_pos.1 < 8 ∧ 0 ≤ to_pos.2 ∧ to_pos.2 < 8 then
    gridSet g to_pos.1.toNat to_pos.2.toNat
      ((gridGet g to_pos.1.toNat to_pos.2.toNat).map fun p => { p with is_king := true })
  else g

/-- The kinging check the search performs after each hypothetical move:
promote the moved piece if it is not a king and landed on the mover's
promotion rank. -/
def king_if_reached (g : Grid) (to_pos : Int × Int) (player : Color) : Grid :=
  match get_piece g to_pos.1 to_pos.2 with
  | some piece =>
    if ¬ piece.is_king ∧ to_pos.1 = king_row player then promote_at g to_pos else g
  | none => g

/-- One hypothetical step of the search: copy the board, apply the move,
apply kinging.  `none` models a raised `IndexError`. -/
def child_board (g : Grid) (player : Color) (move : Move) : Option Grid :=
  (move_piece g move.1 move.2).map fun res => king_if_reached res.1 move.2 player

/-- The maximizing (red) inner loop of `AI._minimax`: running best value,
alpha update, and the `beta <= alpha` break.  The accumulated `Nat` counts
`nodes_evaluated`. -/
def ab_loop_max (child_score : Grid → EInt → EInt → Option (EInt × Nat)) (g : Grid) :
    List Move → EInt → EInt → EInt → Nat → Option (EInt × Nat)
  | [], _, _, max_eval, nodes => some (max_eval, nodes)
  | move :: rest, alpha, beta, max_eval, nodes =>
    match child_board g Color.red move with
    | none => none
    | some g2 =>
      match child_score g2 alpha beta with
      | none => none
      | some sn =>
        let max_eval2 := max max_eval sn.1
        let alpha2 := max alpha sn.1
        if beta ≤ alpha2 then some (max_eval2, nodes + sn.2)
        else ab_loop_max child_score g rest alpha2 beta max_eval2 (nodes + sn.2)

/-- The minimizing (blue) inner loop of `AI._minimax`. -/
def ab_loop_min (child_score : Grid → EInt → EInt → Option (EInt × Nat)) (g : Grid) :
    List Move → EInt → EInt → EInt → Nat → Option (EInt × Nat)
  | [], _, _, min_eval, nodes => some (min_eval, nodes)
  | move :: rest, alpha, beta, min_eval, nodes =>
    match child_board g Color.blue move with
    | none => none
    | some g2 =>
      match child_score g2 alpha beta with
      | none => none
      | some sn =>
        let min_eval2 := min min_eval sn.1
        let beta2 := min beta sn.1
        if beta2 ≤ alpha then some (min_eval2, nodes + sn.2)
        else ab_loop_min child_score g rest alpha beta2 min_eval2 (nodes + sn.2)

/-- `AI._minimax` with explicit fuel (the Python recursion has no depth
guard for negative depths, so it can fail to terminate; `none` models a
run that does not complete within the fuel).  Returns the score together
with the number of `_minimax` calls made (`nodes_evaluated`). -/
def minimaxF : Nat → Grid → Int → Color → EInt → EInt → Option (EInt × Nat)
  | 0, _, _, _, _, _ => none
  | fuel + 1, g, depth, player, alpha, beta =>
    if depth = 0 ∨ is_game_over g = true then some (toE (evaluate g Color.red), 1)
    else
      match get_all_moves g player with
      | [] => some (toE (evaluate g Color.red), 1)
      | move :: rest =>
        if player = Color.red then
          ab_loop_max (fun g2 a b => minimaxF fuel g2 (depth - 1) Color.blue a b) g
            (move :: rest) alpha beta ⊥ 1
        else
          ab_loop_min (fun g2 a b => minimaxF fuel g2 (depth - 1) Color.red a b) g
            (move :: rest) alpha beta ⊤ 1

/-- Modelled from the spec: the inner maximizing loop of the unpruned full
minimax over the same tree (same move generation, same leaf evaluation,
no window). -/
def full_loop_max (child_score : Grid → Option EInt) (g : Grid) :
    List Move → EInt → Option EInt
  | [], acc => some acc
  | move :: rest, acc =>
    match child_board g Color.red move with
    | none => none
    | some g2 =>
      match child_score g2 with
      | none => none
      | some s => full_loop_max child_score g rest (max acc s)

/-- Modelled from the spec: the inner minimizing loop of the unpruned full
minimax. -/
def full_loop_min (child_score : Grid → Option EInt) (g : Grid) :
    List Move → EInt → Option EInt
  | [], acc => some acc
  | move :: rest, acc =>
    match child_board g Color.blue move with
    | none => none
    | some g2 =>
      match child_score g2 with
      | none => none
      | some s => full_loop_min child_score g rest (min acc s)

/-- Modelled from the spec: the unpruned full minimax over the same game
tree — same move generation, same kinging, same leaf evaluation, but no
alpha-beta pruning. -/
def full_minimax : Nat → Grid → Int → Color → Option EInt
  | 0, _, _, _ => none
  | fuel + 1, g, depth, player =>
    if depth = 0 ∨ is_game_over g = true then some (toE (evaluate g Color.red))
    else
      match get_all_moves g player with
      | [] => some (toE (evaluate g Color.red))
      | move :: rest =>
        if player = Color.red then
          full_loop_max (fun g2 => full_minimax fuel g2 (depth - 1) Color.blue) g
            (move :: rest) ⊥
        else
          full_loop_min (fun g2 => full_minimax fuel g2 (depth - 1) Color.red) g
            (move :: rest) ⊤

/-- The move record returned by `AI.get_best_move`. -/
structure BestMove where
  bfrom : Int × Int
  bto : Int × Int
  score : EInt
  deriving DecidableEq, Repr

/-- The candidate scan of `AI.get_best_move`: strict improvement over the
running best score, first-seen order kept on ties. -/
def best_loop (score_of : Move → Option EInt) (player : Color) :
    List Move → EInt → Option BestMove → Option (Option BestMove)
  | [], _, best => some best
  | move :: rest, best_score, best =>
    match score_of move with
    | none => none
    | some s =>
      if player = Color.red then
        if best_score < s then best_loop score_of player rest s (some ⟨move.1, move.2, s⟩)
        else best_loop score_of player rest best_score best
      else
        if s < best_score then best_loop score_of player rest s (some ⟨move.1, move.2, s⟩)
        else best_loop score_of player rest best_score best

/-- `AI.get_best_move` (with fuel): `some none` is Python's `None` result
for a side with no moves, a single move is returned with score 0 without
searching, otherwise each candidate is scored by `_minimax` at `depth - 1`
with the full window. -/
def get_best_move (fuel : Nat) (depth : Int) (g : Grid) (player : Color) :
    Option (Option BestMove) :=
  match get_all_moves g player with
  | [] => some none
  | [move] => some (some ⟨move.1, move.2, toE 0⟩)
  | moves =>
    best_loop
      (fun move => (child_board g player move).bind fun g2 =>
        (minimaxF fuel g2 (depth - 1) (opponent player) ⊥ ⊤).map Prod.fst)
      player moves (if player = Color.red then ⊥ else ⊤) none

/-- Modelled from the spec: `get_best_move` with the candidate scores taken
from the unpruned full minimax instead of the pruning search. -/
def get_best_move_full (fuel : Nat) (depth : Int) (g : Grid) (player : Color) :
    Option (Option BestMove) :=
  match get_all_moves g player with
  | [] => some none
  | [move] => some (some ⟨move.1, move.2, toE 0⟩)
  | moves =>
    best_loop
      (fun move => (child_board g player move).bind fun g2 =>
        full_minimax fuel g2 (depth - 1) (opponent player))
      player moves (if player = Color.red then ⊥ else ⊤) none

/-- `AI.get_move_evaluation`: apply one move, then search at
`max(0, depth - 1)` from the opponent's side with the full window. -/
def get_move_evaluation (fuel : Nat) (aidepth : Int) (g : Grid) (move : Move)
    (player : Color) : Option EInt :=
  (child_board g player move).bind fun g2 =>
    (minimaxF fuel g2 (max 0 (aidepth - 1)) (opponent player) ⊥ ⊤).map Prod.fst

/-- An entry of `AI.get_all_move_evaluations`. -/
structure MoveEval where
  efrom : Int × Int
  eto : Int × Int
  score : EInt
  deriving DecidableEq, Repr

/-- The `for move in moves` accumulation loop of
`AI.get_all_move_evaluations`; `none` models an evaluation that does not
complete. -/
def eval_moves_loop (f : Move → Option MoveEval) : List Move → Option (List MoveEval)
  | [] => some []
  | move :: rest =>
    match f move with
    | none => none
    | some e => (eval_moves_loop f rest).map fun l => e :: l

/-- Stable insertion into a sorted list: `before y x` means the already
placed `y` must stay in front of the new `x`; on ties the new element goes
first, which together with `sort_moves` processing order reproduces the
stability of Python's `list.sort`. -/
def insort_by (before : MoveEval → MoveEval → Bool) (x : MoveEval) :
    List MoveEval → List MoveEval
  | [] => [x]
  | y :: rest => if before y x then y :: insort_by before x rest else x :: y :: rest

/-- A stable sort (Python's `list.sort` is stable; any stable sort agrees
with it elementwise). -/
def sort_moves (before : MoveEval → MoveEval → Bool) : List MoveEval → List MoveEval
  | [] => []
  | x :: rest => insort_by before x (sort_moves before rest)

/-- `AI.get_all_move_evaluations`: score every legal move, then stable-sort
best first for the side (descending for red, ascending for blue). -/
def get_all_move_evaluations (fuel : Nat) (aidepth : Int) (g : Grid) (player : Color) :
    Option (List MoveEval) :=
  (eval_moves_loop
      (fun move => (get_move_evaluation fuel aidepth g move player).map fun s =>
        (⟨move.1, move.2, s⟩ : MoveEval))
      (get_all_moves g player)).map fun evaluated_moves =>
    if player = Color.red then
      sort_moves (fun a b => decide (b.score < a.score)) evaluated_moves
    else
      sort_moves (fun a b => decide (a.score < b.score)) evaluated_moves

/-! ## Move quality classifier (move_analyzer.py) -/

inductive Classification where
  | best
  | good
  | inaccuracy
  | blunder
  deriving DecidableEq, Repr

def BEST_THRESHOLD : Int := 20
def GOOD_THRESHOLD : Int := 80
def INACCURACY_THRESHOLD : Int := 150

/-- `MoveAnalyzer._classify_move`. -/
def classify_move (score_difference : Int) : Classification :=
  if score_difference ≤ BEST_THRESHOLD then Classification.best
  else if score_difference ≤ GOOD_THRESHOLD then Classification.good
  else if score_difference ≤ INACCURACY_THRESHOLD then Classification.inaccuracy
  else Classification.blunder

/-- Extract the integer from a search score (the search only ever reports
integer scores; the defaults are never used on reachable inputs). -/
def eintToZ (e : EInt) : Int := (e.unbot' 0).untop' 0

/-- `MoveAnalyzer._generate_description` (the Python float formatting of
the pawn equivalent is elided; no claim depends on these strings beyond
the `best`-case and invalid-move literals). -/
def generate_description (c : Classification) (score_difference : Int)
    (move_evaluations : List MoveEval) : String :=
  match c with
  | Classification.best =>
    let n := move_evaluations.length
    if n ≠ 0 then s!"Best move! ({n} alternatives)" else "Best move!"
  | Classification.good => s!"Good move, slight advantage loss ({score_difference} points)"
  | Classification.inaccuracy =>
    s!"Inaccuracy, moderate advantage loss ({score_difference} points)"
  | Classification.blunder => s!"Blunder! Major advantage loss ({score_difference} points)"

/-- The record produced by `MoveAnalyzer.analyze_move` (the `move_number`
pass-through field is elided; branches that omit the `all_moves` key store
`[]`). -/
structure AnalysisResult where
  classification : Classification
  score_difference : Int
  best_move_score : EInt
  actual_move_score : EInt
  player : Color
  description : String
  all_moves : List MoveEval
  deriving DecidableEq, Repr

/-- `MoveAnalyzer.analyze_move` (with fuel for the embedded search). -/
def analyze_move (fuel : Nat) (aidepth : Int) (g : Grid) (move_from move_to : Int × Int)
    (player : Color) : Option AnalysisResult :=
  let all_moves := get_all_moves g player
  if all_moves = [] then
    some ⟨Classification.best, 0, toE 0, toE 0, player, "Only move available", []⟩
  else
    (get_all_move_evaluations fuel aidepth g player).bind fun evaluated_moves =>
      match evaluated_moves with
      | [] => some ⟨Classification.best, 0, toE 0, toE 0, player, "Only move available", []⟩
      | best_move_data :: _ =>
        match evaluated_moves.find? fun m =>
            decide (m.efrom = move_from ∧ m.eto = move_to) with
        | none =>
          some ⟨Classification.blunder, 1000, best_move_data.score, toE 0, player,
            "Invalid move", []⟩
        | some actual_evaluation =>
          let best_move_score := best_move_data.score
          let actual_move_score := actual_evaluation.score
          let best_player_score :=
            if player = Color.red then eintToZ best_move_score else -(eintToZ best_move_score)
          let actual_player_score :=
            if player = Color.red then eintToZ actual_move_score
            else -(eintToZ actual_move_score)
          let score_difference := max 0 (best_player_score - actual_player_score)
          let top_moves := evaluated_moves.take 5
          if actual_evaluation = best_move_data then
            some ⟨Classification.best, 0, best_move_score, actual_move_score, player,
              generate_description Classification.best 0 top_moves, top_moves⟩
          else
            let c := classify_move score_difference
            some ⟨c, score_difference, best_move_score, actual_move_score, player,
              generate_description c score_difference top_moves, top_moves⟩

/-! ## Concrete boards used as test positions -/

/-- A board with no pieces at all. -/
def empty_grid : Grid := (List.range 8).map fun _ => (List.range 8).map fun _ => none

/-- A board with a single red man on (5,0). -/
def one_red_grid : Grid :=
  (List.range 8).map fun row => (List.range 8).map fun col =>
    if row = 5 ∧ col = 0 then some ⟨Color.red, 5, 0, false⟩ else none

/-- A stalemate board: a red man stuck on the top rank and a blue man stuck
on the bottom rank; both sides still have pieces but red has no move. -/
def stalemate_grid : Grid :=
  (List.range 8).map fun row => (List.range 8).map fun col =>
    if row = 0 ∧ col = 1 then some ⟨Color.red, 0, 1, false⟩
    else if row = 7 ∧ col = 0 then some ⟨Color.blue, 7, 0, false⟩
    else none

/-- A board where red has a capture: red man (5,2) can jump blue man (4,3)
to the empty (3,4). -/
def capture_grid : Grid :=
  (List.range 8).map fun row => (List.range 8).map fun col =>
    if row = 5 ∧ col = 2 then some ⟨Color.red, 5, 2, false⟩
    else if row = 4 ∧ col = 3 then some ⟨Color.blue, 4, 3, false⟩
    else none

/-! ## Lemmas about the Python indexing model -/

section PyLemmas

variable {α : Type}

lemma pyGet_nonneg (l : List α) (i : Int) (h0 : 0 ≤ i) (h : i < (l.length : Int)) :
    pyGet l i = l.get? i.toNat := by
  unfold pyGet
  rw [if_pos h0, if_pos h]

lemma pyGet_ge (l : List α) (i : Int) (h : (l.length : Int) ≤ i) : pyGet l i = none := by
  unfold pyGet
  rw [if_pos (by omega), if_neg (by omega)]

lemma pyGet_neg_wrap (l : List α) (i : Int) (hneg : i < 0) (h : 0 ≤ i + (l.length : Int)) :
    pyGet l i = l.get? (i + (l.length : Int)).toNat := by
  unfold pyGet
  rw [if_neg (by omega), if_pos h]

lemma pyGet_lt_lo (l : List α) (i : Int) (h : i + (l.length : Int) < 0) : pyGet l i = none := by
  unfold pyGet
  rw [if_neg (by omega), if_neg (by omega)]

lemma pySet_nonneg (l : List α) (i : Int) (v : α) (h0 : 0 ≤ i) (h : i < (l.length : Int)) :
    pySet l i v = some (l.set i.toNat v) := by
  unfold pySet
  rw [if_pos h0, if_pos h]

lemma pySet_ge (l : List α) (i : Int) (v : α) (h : (l.length : Int) ≤ i) :
    pySet l i v = none := by
  unfold pySet
  rw [if_pos (by omega), if_neg (by omega)]

lemma pySet_length (l l2 : List α) (i : Int) (v : α) (h : pySet l i v = some l2) :
    l2.length = l.length := by
  unfold pySet at h
  split_ifs at h <;> simp at h <;> subst h <;> simp

end PyLemmas

lemma wf_get_row {g : Grid} (hwf : WF g) {r : Nat} (hr : r < 8) :
    ∃ rowL, g.get? r = some rowL ∧ rowL.length = 8 := by
  have hlen : r < g.length := by rw [hwf.1]; exact hr
  refine ⟨g.get ⟨r, hlen⟩, List.get?_eq_get hlen, ?_⟩
  exact hwf.2 _ (List.get_mem g r hlen)

lemma pyGet_natCast {α : Type} (l : List α) (r : Nat) (hr : r < l.length) :
    pyGet l (r : Int) = l.get? r := by
  rw [pyGet_nonneg l _ (Int.natCast_nonneg r) (by exact_mod_cast hr), Int.toNat_natCast]

lemma pyCellGet_inb {g : Grid} (hwf : WF g) {r c : Nat} (hr : r < 8) (hc : c < 8) :
    pyCellGet g (r : Int) (c : Int) = some (gridGet g r c) := by
  obtain ⟨rowL, hrow, hlen⟩ := wf_get_row hwf hr
  have hr8 : r < g.length := by rw [hwf.1]; exact hr
  have hc8 : c < rowL.length := by rw [hlen]; exact hc
  unfold pyCellGet
  rw [pyGet_natCast g r hr8, hrow]
  simp only [Option.some_bind]
  rw [pyGet_natCast rowL c hc8]
  unfold gridGet
  rw [hrow]
  simp only [Option.some_bind]
  rw [List.get?_eq_get hc8]
  simp

lemma pySet_of_pyGet {α : Type} {l : List α} {i : Int} {x : α} (h : pyGet l i = some x)
    (v : α) : ∃ l2, pySet l i v = some l2 ∧ l2.length = l.length := by
  unfold pyGet at h
  unfold pySet
  split_ifs at h ⊢ with h1 h2 h3
  · exact ⟨_, rfl, by simp⟩
  · exact ⟨_, rfl, by simp⟩

lemma wf_pyCellSet {g g2 : Grid} (hwf : WF g) {r c : Int} {v : Option Piece}
    (h : pyCellSet g r c v = some g2) : WF g2 := by
  unfold pyCellSet at h
  rcases hrow : pyGet g r with _ | rowL
  · rw [hrow] at h; simp at h
  · rw [hrow] at h
    simp only [Option.some_bind] at h
    rcases hset : pySet rowL c v with _ | rowL2
    · rw [hset] at h; simp at h
    · rw [hset] at h
      simp only [Option.some_bind] at h
      have hrmem : rowL ∈ g := by
        unfold pyGet at hrow
        split_ifs at hrow <;> exact List.get?_mem hrow
      have hlen2 : rowL2.length = 8 := by
        rw [pySet_length rowL rowL2 c v hset]; exact hwf.2 _ hrmem
      unfold pySet at h
      split_ifs at h <;> simp at h <;> subst h
      · constructor
        · rw [List.length_set]; exact hwf.1
        · intro row hmem
          rcases List.mem_or_eq_of_mem_set hmem with hx | hx
          · exact hwf.2 _ hx
          · rw [hx]; exact hlen2
      · constructor
        · rw [List.length_set]; exact hwf.1
        · intro row hmem
          rcases List.mem_or_eq_of_mem_set hmem with hx | hx
          · exact hwf.2 _ hx
          · rw [hx]; exact hlen2

lemma pyCellSet_of_pyCellGet {g : Grid} {r c : Int} {x : Option Piece}
    (h : pyCellGet g r c = some x) (v : Option Piece) :
    ∃ g2, pyCellSet g r c v = some g2 := by
  unfold pyCellGet at h
  rcases hrow : pyGet g r with _ | rowL
  · rw [hrow] at h; simp at h
  · rw [hrow] at h
    simp only [Option.some_bind] at h
    obtain ⟨rowL2, hset, _⟩ := pySet_of_pyGet h v
    unfold pyCellSet
    rw [hrow]
    simp only [Option.some_bind]
    rw [hset]
    simp only [Option.some_bind]
    have hg : pyGet g r = some rowL := hrow
    obtain ⟨g2, hg2, _⟩ := pySet_of_pyGet hg rowL2
    exact ⟨g2, hg2⟩

lemma pyCellSet_inb {g : Grid} (hwf : WF g) {r c : Nat} (hr : r < 8) (hc : c < 8)
    (v : Option Piece) : pyCellSet g (r : Int) (c : Int) v = some (gridSet g r c v) := by
  obtain ⟨rowL, hrow, hlen⟩ := wf_get_row hwf hr
  have hr8 : r < g.length := by rw [hwf.1]; exact hr
  have hc8 : c < rowL.length := by rw [hlen]; exact hc
  unfold pyCellSet
  rw [pyGet_natCast g r hr8, hrow]
  simp only [Option.some_bind]
  rw [pySet_nonneg rowL _ v (Int.natCast_nonneg c) (by exact_mod_cast hc8), Int.toNat_natCast]
  simp only [Option.some_bind]
  rw [pySet_nonneg g _ _ (Int.natCast_nonneg r) (by exact_mod_cast hr8), Int.toNat_natCast]
  unfold gridSet
  rw [hrow]
  rfl

lemma pyCellSet_row_hi {g : Grid} (hwf : WF g) {r : Int} (hr : 8 ≤ r) (c : Int)
    (v : Option Piece) : pyCellSet g r c v = none := by
  unfold pyCellSet
  rw [pyGet_ge g r (by rw [hwf.1]; exact_mod_cast hr)]
  rfl

lemma pyCellSet_row_lo {g : Grid} (hwf : WF g) {r : Int} (hr : r < -8) (c : Int)
    (v : Option Piece) : pyCellSet g r c v = none := by
  unfold pyCellSet
  rw [pyGet_lt_lo g r (by rw [hwf.1]; push_cast; omega)]
  rfl

lemma pyGet_grid_row {g : Grid} (hwf : WF g) {r : Int} (hr : -8 ≤ r) (hr8 : r < 8) :
    ∃ rowL, pyGet g r = some rowL ∧ rowL.length = 8 := by
  by_cases h0 : 0 ≤ r
  · obtain ⟨rowL, hrow, hlen⟩ := wf_get_row hwf (r := r.toNat) (by omega)
    refine ⟨rowL, ?_, hlen⟩
    rw [pyGet_nonneg g r h0 (by rw [hwf.1]; push_cast; omega)]
    exact hrow
  · obtain ⟨rowL, hrow, hlen⟩ := wf_get_row hwf (r := (r + 8).toNat) (by omega)
    refine ⟨rowL, ?_, hlen⟩
    have hL : (g.length : Int) = 8 := by simp [hwf.1]
    rw [pyGet_neg_wrap g r (by omega) (by rw [hL]; omega), hL]
    exact hrow

lemma pyCellSet_col_hi {g : Grid} (hwf : WF g) {r c : Int} (hr : -8 ≤ r) (hr8 : r < 8)
    (hc : 8 ≤ c) (v : Option Piece) : pyCellSet g r c v = none := by
  obtain ⟨rowL, hrow, hlen⟩ := pyGet_grid_row hwf hr hr8
  unfold pyCellSet
  rw [hrow]
  simp only [Option.some_bind]
  rw [pySet_ge rowL c v (by rw [hlen]; exact_mod_cast hc)]
  rfl

lemma gridGet_row {g : Grid} {n : Nat} {rowL : List (Option Piece)}
    (hrow : g.get? n = some rowL) {m : Nat} (hm : m < rowL.length) :
    rowL.get? m = some (gridGet g n m) := by
  unfold gridGet
  rw [hrow]
  simp only [Option.some_bind]
  rw [List.get?_eq_get hm]
  simp

lemma pyCellGet_inbZ {g : Grid} (hwf : WF g) {r c : Int} (h1 : 0 ≤ r) (h2 : r < 8)
    (h3 : 0 ≤ c) (h4 : c < 8) : pyCellGet g r c = some (gridGet g r.toNat c.toNat) := by
  have := pyCellGet_inb hwf (r := r.toNat) (c := c.toNat) (by omega) (by omega)
  rwa [Int.toNat_of_nonneg h1, Int.toNat_of_nonneg h3] at this

lemma pyCellSet_inbZ {g : Grid} (hwf : WF g) {r c : Int} (h1 : 0 ≤ r) (h2 : r < 8)
    (h3 : 0 ≤ c) (h4 : c < 8) (v : Option Piece) :
    pyCellSet g r c v = some (gridSet g r.toNat c.toNat v) := by
  have := pyCellSet_inb hwf (r := r.toNat) (c := c.toNat) (by omega) (by omega) v
  rwa [Int.toNat_of_nonneg h1, Int.toNat_of_nonneg h3] at this

lemma wf_gridSet {g : Grid} (hwf : WF g) {r : Nat} (hr : r < 8) (c : Nat)
    (v : Option Piece) : WF (gridSet g r c v) := by
  obtain ⟨rowL, hrow, hlen⟩ := wf_get_row hwf hr
  unfold gridSet
  rw [hrow]
  constructor
  · rw [List.length_set]; exact hwf.1
  · intro row hmem
    rcases List.mem_or_eq_of_mem_set hmem with hx | hx
    · exact hwf.2 _ hx
    · rw [hx]
      simp [hlen]

lemma pyCellSet_hi_none {g : Grid} (hwf : WF g) {r c : Int} (h : 8 ≤ r ∨ 8 ≤ c)
    (v : Option Piece) : pyCellSet g r c v = none := by
  by_cases h1 : 8 ≤ r
  · exact pyCellSet_row_hi hwf h1 c v
  · by_cases h2 : r < -8
    · exact pyCellSet_row_lo hwf h2 c v
    · exact pyCellSet_col_hi hwf (by omega) (by omega) (h.resolve_left h1) v

lemma fdiv_two_bounds {a : Int} (h0 : 0 ≤ a) (h : a ≤ 14) : 0 ≤ a.fdiv 2 ∧ a.fdiv 2 < 8 := by
  rw [Int.fdiv_eq_ediv _ (by norm_num)]
  omega

lemma move_piece_inb {g : Grid} (hwf : WF g) (fp tp : Int × Int)
    (hf1 : 0 ≤ fp.1) (hf2 : fp.1 < 8) (hf3 : 0 ≤ fp.2) (hf4 : fp.2 < 8)
    (ht1 : 0 ≤ tp.1) (ht2 : tp.1 < 8) (ht3 : 0 ≤ tp.2) (ht4 : tp.2 < 8) :
    ∃ g2 cap, move_piece g fp tp = some (g2, cap) ∧ WF g2 := by
  simp only [move_piece]
  rw [pyCellGet_inbZ hwf hf1 hf2 hf3 hf4]
  simp only [Option.some_bind]
  rcases hcell : gridGet g fp.1.toNat fp.2.toNat with _ | piece
  · exact ⟨g, none, rfl, hwf⟩
  · by_cases hj : (tp.1 - fp.1).natAbs = 2
    · rw [if_pos hj]
      obtain ⟨hcr0, hcr8⟩ := fdiv_two_bounds (a := fp.1 + tp.1) (by omega) (by omega)
      obtain ⟨hcc0, hcc8⟩ := fdiv_two_bounds (a := fp.2 + tp.2) (by omega) (by omega)
      rw [pyCellGet_inbZ hwf hcr0 hcr8 hcc0 hcc8]
      simp only [Option.some_bind]
      rw [pyCellSet_inbZ hwf hcr0 hcr8 hcc0 hcc8]
      simp only [Option.map_some', Option.some_bind]
      have hwf2 : WF (gridSet g ((fp.1 + tp.1).fdiv 2).toNat ((fp.2 + tp.2).fdiv 2).toNat none) :=
        wf_gridSet hwf (by omega) _ _
      rw [pyCellSet_inbZ hwf2 ht1 ht2 ht3 ht4]
      simp only [Option.some_bind]
      have hwf3 : WF (gridSet _ tp.1.toNat tp.2.toNat
          (some { piece with row := tp.1, col := tp.2 })) := wf_gridSet hwf2 (by omega) _ _
      rw [pyCellSet_inbZ hwf3 hf1 hf2 hf3 hf4]
      exact ⟨_, _, rfl, wf_gridSet hwf3 (by omega) _ _⟩
    · rw [if_neg hj]
      simp only [Option.some_bind]
      rw [pyCellSet_inbZ hwf ht1 ht2 ht3 ht4]
      simp only [Option.some_bind]
      have hwf2 : WF (gridSet g tp.1.toNat tp.2.toNat
          (some { piece with row := tp.1, col := tp.2 })) := wf_gridSet hwf (by omega) _ _
      rw [pyCellSet_inbZ hwf2 hf1 hf2 hf3 hf4]
      exact ⟨_, none, rfl, wf_gridSet hwf2 (by omega) _ _⟩

/-- C9 counterexample: `move_piece` on the initial board from the empty
square (0,0) to the out-of-range square (8,8) returns normally (source
square empty, early return) — so it is not true that every row or column
index of 8 or more hits an out-of-range access. -/
theorem move_piece_counterexample :
    move_piece setup_initial_position (0, 0) (8, 8) = some (setup_initial_position, none) := by
  decide

/-- C9 (amended): `move_piece` does no bounds check: all-in-bounds moves
run without an out-of-range access; a from-row of 8 or more, or an
in-range from-row with a from-column of 8 or more, raises; a to-index of
8 or more raises whenever the source square holds a piece (when the source
square is empty it returns early and the to square is never touched); and
a negative from-row in [-8,-1] silently reads the wrapped board square. -/
theorem move_piece_bounds_amended (g : Grid) (hwf : WF g) :
    (∀ fp tp : Int × Int, 0 ≤ fp.1 → fp.1 < 8 → 0 ≤ fp.2 → fp.2 < 8 →
      0 ≤ tp.1 → tp.1 < 8 → 0 ≤ tp.2 → tp.2 < 8 → (move_piece g fp tp).isSome = true) ∧
    (∀ fp tp : Int × Int, 8 ≤ fp.1 → move_piece g fp tp = none) ∧
    (∀ fp tp : Int × Int, -8 ≤ fp.1 → fp.1 < 8 → 8 ≤ fp.2 → move_piece g fp tp = none) ∧
    (∀ fp tp : Int × Int, ∀ p : Piece, 0 ≤ fp.1 → fp.1 < 8 → 0 ≤ fp.2 → fp.2 < 8 →
      gridGet g fp.1.toNat fp.2.toNat = some p → 8 ≤ tp.1 ∨ 8 ≤ tp.2 →
      move_piece g fp tp = none) ∧
    (∀ fp : Int × Int, -8 ≤ fp.1 → fp.1 < 0 → 0 ≤ fp.2 → fp.2 < 8 →
      pyCellGet g fp.1 fp.2 = some (gridGet g (fp.1 + 8).toNat fp.2.toNat)) := by
  have hL : (g.length : Int) = 8 := by simp [hwf.1]
  refine ⟨?_, ?_, ?_, ?_, ?_⟩
  · intro fp tp hf1 hf2 hf3 hf4 ht1 ht2 ht3 ht4
    obtain ⟨g2, cap, hmp, _⟩ := move_piece_inb hwf fp tp hf1 hf2 hf3 hf4 ht1 ht2 ht3 ht4
    rw [hmp]
    rfl
  · intro fp tp h8
    simp only [move_piece]
    unfold pyCellGet
    rw [pyGet_ge g fp.1 (by omega)]
    rfl
  · intro fp tp h1 h2 h8
    obtain ⟨rowL, hrow, hlen⟩ := pyGet_grid_row hwf h1 h2
    simp only [move_piece]
    unfold pyCellGet
    rw [hrow]
    simp only [Option.some_bind]
    rw [pyGet_ge rowL fp.2 (by rw [hlen]; exact_mod_cast h8)]
    rfl
  · intro fp tp p hf1 hf2 hf3 hf4 hp hor
    simp only [move_piece]
    rw [pyCellGet_inbZ hwf hf1 hf2 hf3 hf4, hp]
    simp only [Option.some_bind]
    by_cases hj : (tp.1 - fp.1).natAbs = 2
    · rw [if_pos hj]
      rcases hcg : pyCellGet g ((fp.1 + tp.1).fdiv 2) ((fp.2 + tp.2).fdiv 2) with _ | cap
      · rfl
      · obtain ⟨g2, hset⟩ := pyCellSet_of_pyCellGet hcg none
        rw [hset]
        simp only [Option.map_some', Option.some_bind]
        rw [pyCellSet_hi_none (wf_pyCellSet hwf hset) hor]
        rfl
    · rw [if_neg hj]
      simp only [Option.some_bind]
      rw [pyCellSet_hi_none hwf hor]
      rfl
  · intro fp h1 h2 h3 h4
    obtain ⟨rowL, hrow, hlen⟩ := wf_get_row hwf (r := (fp.1 + 8).toNat) (by omega)
    unfold pyCellGet
    rw [pyGet_neg_wrap g fp.1 (by omega) (by rw [hL]; omega), hL, hrow]
    simp only [Option.some_bind]
    rw [pyGet_nonneg rowL fp.2 h3 (by rw [hlen]; exact_mod_cast h4)]
    exact gridGet_row hrow (by rw [hlen]; omega)

/-- C9 witness for the amended theorem: an in-bounds move on the initial
board runs without error, and a from-row of 9 raises. -/
theorem move_piece_bounds_amended_witness :
    (move_piece setup_initial_position (5, 0) (4, 1)).isSome = true ∧
    move_piece setup_initial_position (9, 0) (4, 1) = none := by
  constructor
  · exact (move_piece_bounds_amended setup_initial_position (by decide)).1 (5, 0) (4, 1)
      (by decide) (by decide) (by decide) (by decide)
      (by decide) (by decide) (by decide) (by decide)
  · exact (move_piece_bounds_amended setup_initial_position (by decide)).2.1 (9, 0) (4, 1)
      (by decide)

/-- C3 counterexample: the empty board is terminal purely by piece
exhaustion and blue has zero pieces, yet the evaluation from red's
perspective is not 10000 (the red-pieces-zero branch fires first and
returns -10000). -/
theorem terminal_scoring_counterexample :
    (count_pieces empty_grid Color.red = 0 ∨ count_pieces empty_grid Color.blue = 0) ∧
    count_pieces empty_grid Color.blue = 0 ∧
    evaluate empty_grid Color.red ≠ 10000 := by
  refine ⟨Or.inl (by decide), by decide, by decide⟩

/-- C3 (amended): on a board terminal by piece exhaustion where exactly one
side is out of pieces, the evaluation from side A's perspective is 10000
iff the opponent has zero pieces and is -10000 iff A has zero pieces; a
terminal board on which both sides still have pieces evaluates to 0. -/
theorem terminal_scoring_amended (g : Grid) (A : Color) :
    ((count_pieces g A = 0 ∨ count_pieces g (opponent A) = 0) →
     ¬ (count_pieces g A = 0 ∧ count_pieces g (opponent A) = 0) →
      (evaluate g A = 10000 ↔ count_pieces g (opponent A) = 0) ∧
      (evaluate g A = -10000 ↔ count_pieces g A = 0)) ∧
    (is_game_over g = true → 0 < count_pieces g Color.red → 0 < count_pieces g Color.blue →
      evaluate g A = 0) := by
  constructor
  · intro hex hnot
    have hex' : count_pieces g Color.red = 0 ∨ count_pieces g Color.blue = 0 := by
      cases A
      case red => simpa [opponent] using hex
      case blue => exact Or.symm (by simpa [opponent] using hex)
    have hgo : is_game_over g = true := by
      simp only [is_game_over]
      rw [if_pos hex']
    have hevt : evaluate g A = evaluate_terminal_position g A := by
      unfold evaluate
      rw [if_pos hgo]
    cases A
    case red =>
      rw [show opponent Color.red = Color.blue from rfl] at hex hnot ⊢
      rcases hex with hr0 | hb0
      · have hb : count_pieces g Color.blue ≠ 0 := fun hb => hnot ⟨hr0, hb⟩
        have hev : evaluate g Color.red = -10000 := by
          rw [hevt]
          simp only [evaluate_terminal_position]
          rw [if_pos hr0]
          simp
        refine ⟨⟨fun h => ?_, fun h => absurd h hb⟩, ⟨fun _ => hr0, fun _ => hev⟩⟩
        rw [hev] at h
        norm_num at h
      · have hr : count_pieces g Color.red ≠ 0 := fun hr => hnot ⟨hr, hb0⟩
        have hev : evaluate g Color.red = 10000 := by
          rw [hevt]
          simp only [evaluate_terminal_position]
          rw [if_neg hr, if_pos hb0]
          simp
        refine ⟨⟨fun _ => hb0, fun _ => hev⟩, ⟨fun h => ?_, fun h => absurd h hr⟩⟩
        rw [hev] at h
        norm_num at h
    case blue =>
      rw [show opponent Color.blue = Color.red from rfl] at hex hnot ⊢
      rcases hex with hb0 | hr0
      · have hr : count_pieces g Color.red ≠ 0 := fun hr => hnot ⟨hb0, hr⟩
        have hev : evaluate g Color.blue = -10000 := by
          rw [hevt]
          simp only [evaluate_terminal_position]
          rw [if_neg hr, if_pos hb0]
          simp
        refine ⟨⟨fun h => ?_, fun h => absurd h hr⟩, ⟨fun _ => hb0, fun _ => hev⟩⟩
        rw [hev] at h
        norm_num at h
      · have hb : count_pieces g Color.blue ≠ 0 := fun hb => hnot ⟨hb, hr0⟩
        have hev : evaluate g Color.blue = 10000 := by
          rw [hevt]
          simp only [evaluate_terminal_position]
          rw [if_pos hr0]
          simp
        refine ⟨⟨fun _ => hr0, fun _ => hev⟩, ⟨fun h => ?_, fun h => absurd h hb⟩⟩
        rw [hev] at h
        norm_num at h
  · intro hgo hr hb
    have hr' : count_pieces g Color.red ≠ 0 := by omega
    have hb' : count_pieces g Color.blue ≠ 0 := by omega
    unfold evaluate
    rw [if_pos hgo]
    simp only [evaluate_terminal_position]
    rw [if_neg hr', if_neg hb']

/-- C3 witness: the amended theorem applied to a board where only red has
a piece (decisive) and to a stalemate board with a piece on each side. -/
theorem terminal_scoring_amended_witness :
    ((evaluate one_red_grid Color.red = 10000 ↔
        count_pieces one_red_grid (opponent Color.red) = 0) ∧
      (evaluate one_red_grid Color.red = -10000 ↔ count_pieces one_red_grid Color.red = 0)) ∧
    evaluate stalemate_grid Color.red = 0 :=
  ⟨(terminal_scoring_amended one_red_grid Color.red).1 (Or.inr (by decide)) (by decide),
   (terminal_scoring_amended stalemate_grid Color.red).2 (by decide) (by decide) (by decide)⟩

set_option maxHeartbeats 4000000 in
/-- C5 counterexample: on the initial board, `_minimax` with remaining
depth -1 does not return the static evaluation immediately — it recurses
into a child (exhausting one unit of fuel), unlike depth 0 which returns
the static evaluation at once. -/
theorem minimax_negative_depth_counterexample :
    minimaxF 1 setup_initial_position (-1) Color.red ⊥ ⊤ = none ∧
    minimaxF 1 setup_initial_position 0 Color.red ⊥ ⊤ =
      some (toE (evaluate setup_initial_position Color.red), 1) := by
  constructor
  · decide
  · decide

/-- C5 (amended): with remaining depth exactly 0 — or on a board that is
already over — `_minimax` returns the static evaluator's score (from red's
perspective) immediately, visiting exactly one node and doing no
recursion; a negative depth on a live board instead recurses. -/
theorem minimax_immediate_amended (fuel : Nat) (g : Grid) (depth : Int) (player : Color)
    (alpha beta : EInt) (h : depth = 0 ∨ is_game_over g = true) :
    minimaxF (fuel + 1) g depth player alpha beta = some (toE (evaluate g Color.red), 1) := by
  simp only [minimaxF]
  rw [if_pos h]

/-- C5 witness: the amended theorem at depth 0 on the initial board. -/
theorem minimax_immediate_amended_witness :
    minimaxF 1 setup_initial_position 0 Color.red ⊥ ⊤ =
      some (toE (evaluate setup_initial_position Color.red), 1) :=
  minimax_immediate_amended 0 setup_initial_position 0 Color.red ⊥ ⊤ (Or.inl rfl)

set_option maxHeartbeats 4000000 in
/-- C8: the freshly initialized board has 12 pieces per side, no capture
available to either side, and exactly 7 legal moves for each side, none of
which is a jump. -/
theorem opening_position_moves :
    count_pieces setup_initial_position Color.red = 12 ∧
    count_pieces setup_initial_position Color.blue = 12 ∧
    side_capture_moves setup_initial_position Color.red = [] ∧
    side_capture_moves setup_initial_position Color.blue = [] ∧
    (get_all_moves setup_initial_position Color.red).length = 7 ∧
    (get_all_moves setup_initial_position Color.blue).length = 7 ∧
    (∀ m ∈ get_all_moves setup_initial_position Color.red, (m.2.1 - m.1.1).natAbs ≠ 2) ∧
    (∀ m ∈ get_all_moves setup_initial_position Color.blue, (m.2.1 - m.1.1).natAbs ≠ 2) := by
  decide


/-! ## Membership characterizations of the generated moves -/

lemma piece_directions_subset (p : Piece) :
    piece_directions p ⊆ [((-1 : Int), (-1 : Int)), (-1, 1), (1, -1), (1, 1)] := by
  unfold piece_directions
  split_ifs <;> intro d hd <;> simp at hd ⊢ <;> tauto

lemma mem_piece_directions {p : Piece} {d : Int × Int} (hd : d ∈ piece_directions p) :
    (d.1 = 1 ∨ d.1 = -1) ∧ (d.2 = 1 ∨ d.2 = -1) := by
  have h := piece_directions_subset p hd
  simp at h
  rcases h with rfl | rfl | rfl | rfl <;> simp

lemma piece_directions_forward {p : Piece} {d : Int × Int} (hd : d ∈ piece_directions p)
    (hk : p.is_king = false) :
    (p.color = Color.red → d.1 = -1) ∧ (p.color = Color.blue → d.1 = 1) := by
  unfold piece_directions at hd
  rw [if_neg (by simp [hk])] at hd
  cases hcol : p.color
  case red =>
    rw [if_pos hcol] at hd
    simp at hd
    refine ⟨fun _ => ?_, fun hb => absurd hb (by decide)⟩
    rcases hd with rfl | rfl <;> rfl
  case blue =>
    rw [if_neg (by rw [hcol]; decide)] at hd
    simp at hd
    refine ⟨fun hr => absurd hr (by decide), fun _ => ?_⟩
    rcases hd with rfl | rfl <;> rfl

lemma mem_get_capture_moves {p : Piece} {g : Grid} {pos : Int × Int} :
    pos ∈ get_capture_moves p g ↔
      ∃ d ∈ piece_directions p,
        (0 ≤ p.row + d.1 ∧ p.row + d.1 < 8 ∧ 0 ≤ p.col + d.2 ∧ p.col + d.2 < 8) ∧
        (∃ enemy, get_piece g (p.row + d.1) (p.col + d.2) = some enemy ∧
          enemy.color ≠ p.color) ∧
        (0 ≤ p.row + d.1 + d.1 ∧ p.row + d.1 + d.1 < 8 ∧
          0 ≤ p.col + d.2 + d.2 ∧ p.col + d.2 + d.2 < 8) ∧
        get_piece g (p.row + d.1 + d.1) (p.col + d.2 + d.2) = none ∧
        pos = (p.row + d.1 + d.1, p.col + d.2 + d.2) := by
  simp only [get_capture_moves, List.mem_filterMap]
  constructor
  · rintro ⟨d, hd, hf⟩
    refine ⟨d, hd, ?_⟩
    by_cases h1 : 0 ≤ p.row + d.1 ∧ p.row + d.1 < 8 ∧ 0 ≤ p.col + d.2 ∧ p.col + d.2 < 8
    case neg => rw [if_neg h1] at hf; exact absurd hf (by simp)
    rw [if_pos h1] at hf
    rcases hge : get_piece g (p.row + d.1) (p.col + d.2) with _ | enemy
    · simp only [hge] at hf
      exact absurd hf (by simp)
    · simp only [hge] at hf
      split_ifs at hf with h2 h3
      obtain ⟨hj1, hj2, hj3, hj4, hj5⟩ := h3
      simp only [Option.some.injEq] at hf
      exact ⟨h1, ⟨enemy, rfl, h2⟩, ⟨hj1, hj2, hj3, hj4⟩, hj5, hf.symm⟩
  · rintro ⟨d, hd, hb1, ⟨enemy, hge, hne⟩, hb2, hemp, rfl⟩
    refine ⟨d, hd, ?_⟩
    rw [if_pos hb1]
    simp only [hge]
    rw [if_pos hne, if_pos ⟨hb2.1, hb2.2.1, hb2.2.2.1, hb2.2.2.2, hemp⟩]


lemma mem_get_possible_moves {p : Piece} {g : Grid} {pos : Int × Int} :
    pos ∈ get_possible_moves p g ↔
      ∃ d ∈ piece_directions p,
        (0 ≤ p.row + d.1 ∧ p.row + d.1 < 8 ∧ 0 ≤ p.col + d.2 ∧ p.col + d.2 < 8) ∧
        ((get_piece g (p.row + d.1) (p.col + d.2) = none ∧ pos = (p.row + d.1, p.col + d.2)) ∨
          (∃ target, get_piece g (p.row + d.1) (p.col + d.2) = some target ∧
            target.color ≠ p.color ∧
            (0 ≤ p.row + d.1 + d.1 ∧ p.row + d.1 + d.1 < 8 ∧
              0 ≤ p.col + d.2 + d.2 ∧ p.col + d.2 + d.2 < 8) ∧
            get_piece g (p.row + d.1 + d.1) (p.col + d.2 + d.2) = none ∧
            pos = (p.row + d.1 + d.1, p.col + d.2 + d.2))) := by
  simp only [get_possible_moves, List.mem_filterMap]
  constructor
  · rintro ⟨d, hd, hf⟩
    refine ⟨d, hd, ?_⟩
    by_cases h1 : 0 ≤ p.row + d.1 ∧ p.row + d.1 < 8 ∧ 0 ≤ p.col + d.2 ∧ p.col + d.2 < 8
    case neg => rw [if_neg h1] at hf; exact absurd hf (by simp)
    rw [if_pos h1] at hf
    rcases hge : get_piece g (p.row + d.1) (p.col + d.2) with _ | target
    · simp only [hge, Option.some.injEq] at hf
      exact ⟨h1, Or.inl ⟨rfl, hf.symm⟩⟩
    · simp only [hge] at hf
      split_ifs at hf with h2 h3
      obtain ⟨hj1, hj2, hj3, hj4, hj5⟩ := h3
      simp only [Option.some.injEq] at hf
      exact ⟨h1, Or.inr ⟨target, rfl, h2, ⟨hj1, hj2, hj3, hj4⟩, hj5, hf.symm⟩⟩
  · rintro ⟨d, hd, hb1, hcase⟩
    refine ⟨d, hd, ?_⟩
    rw [if_pos hb1]
    rcases hcase with ⟨hge, rfl⟩ | ⟨target, hge, hne, hb2, hemp, rfl⟩
    · simp only [hge]
    · simp only [hge]
      rw [if_pos hne, if_pos ⟨hb2.1, hb2.2.1, hb2.2.2.1, hb2.2.2.2, hemp⟩]

lemma mem_side_capture_moves {g : Grid} {player : Color} {m : Move} :
    m ∈ side_capture_moves g player ↔
      ∃ r, r < 8 ∧ ∃ c, c < 8 ∧ ∃ p, gridGet g r c = some p ∧ p.color = player ∧
        m.1 = ((r : Int), (c : Int)) ∧ m.2 ∈ get_capture_moves p g := by
  unfold side_capture_moves
  simp only [List.mem_flatMap, List.mem_range]
  constructor
  · rintro ⟨r, hr, c, hc, hm⟩
    rcases hcell : gridGet g r c with _ | p
    · simp only [hcell] at hm
      simp at hm
    · simp only [hcell] at hm
      by_cases hcol : p.color = player
      · rw [if_pos hcol, List.mem_map] at hm
        obtain ⟨pos, hpos, heq⟩ := hm
        exact ⟨r, hr, c, hc, p, hcell, hcol, by rw [← heq], by rw [← heq]; exact hpos⟩
      · rw [if_neg hcol] at hm; simp at hm
  · rintro ⟨r, hr, c, hc, p, hcell, hcol, h1, h2⟩
    refine ⟨r, hr, c, hc, ?_⟩
    simp only [hcell]
    rw [if_pos hcol, List.mem_map]
    refine ⟨m.2, h2, ?_⟩
    rw [← h1]

lemma mem_side_regular_moves {g : Grid} {player : Color} {m : Move} :
    m ∈ side_regular_moves g player ↔
      ∃ r, r < 8 ∧ ∃ c, c < 8 ∧ ∃ p, gridGet g r c = some p ∧ p.color = player ∧
        m.1 = ((r : Int), (c : Int)) ∧ m.2 ∈ get_possible_moves p g := by
  unfold side_regular_moves
  simp only [List.mem_flatMap, List.mem_range]
  constructor
  · rintro ⟨r, hr, c, hc, hm⟩
    rcases hcell : gridGet g r c with _ | p
    · simp only [hcell] at hm
      simp at hm
    · simp only [hcell] at hm
      by_cases hcol : p.color = player
      · rw [if_pos hcol, List.mem_map] at hm
        obtain ⟨pos, hpos, heq⟩ := hm
        exact ⟨r, hr, c, hc, p, hcell, hcol, by rw [← heq], by rw [← heq]; exact hpos⟩
      · rw [if_neg hcol] at hm; simp at hm
  · rintro ⟨r, hr, c, hc, p, hcell, hcol, h1, h2⟩
    refine ⟨r, hr, c, hc, ?_⟩
    simp only [hcell]
    rw [if_pos hcol, List.mem_map]
    refine ⟨m.2, h2, ?_⟩
    rw [← h1]

/-- "Some piece of this side has a capture available". -/
def has_capture (g : Grid) (player : Color) : Prop :=
  ∃ r, r < 8 ∧ ∃ c, c < 8 ∧ ∃ p, gridGet g r c = some p ∧ p.color = player ∧
    get_capture_moves p g ≠ []

lemma side_capture_moves_eq_nil {g : Grid} {player : Color} :
    side_capture_moves g player = [] ↔ ¬ has_capture g player := by
  constructor
  · rintro h ⟨r, hr, c, hc, p, hp, hcol, hne⟩
    obtain ⟨pos, hpos⟩ := List.exists_mem_of_ne_nil _ hne
    have hmem : (((r : Int), (c : Int)), pos) ∈ side_capture_moves g player :=
      mem_side_capture_moves.mpr ⟨r, hr, c, hc, p, hp, hcol, rfl, hpos⟩
    rw [h] at hmem
    simp at hmem
  · intro h
    by_contra hne
    obtain ⟨m, hm⟩ := List.exists_mem_of_ne_nil _ hne
    obtain ⟨r, hr, c, hc, p, hp, hcol, _, h2⟩ := mem_side_capture_moves.mp hm
    refine h ⟨r, hr, c, hc, p, hp, hcol, fun hnil => ?_⟩
    rw [hnil] at h2
    simp at h2

/-- The total number of capture moves across all of a side's pieces. -/
def total_capture_count (g : Grid) (player : Color) : Nat :=
  ((List.range 8).map fun row =>
    ((List.range 8).map fun col =>
      match gridGet g row col with
      | some p => if p.color = player then (get_capture_moves p g).length else 0
      | none => 0).sum).sum

lemma length_side_capture_moves (g : Grid) (player : Color) :
    (side_capture_moves g player).length = total_capture_count g player := by
  unfold side_capture_moves total_capture_count
  rw [List.length_flatMap]
  congr 1
  apply List.map_congr_left
  intro row _
  simp only [Function.comp_apply]
  rw [List.length_flatMap]
  congr 1
  apply List.map_congr_left
  intro col _
  simp only [Function.comp_apply]
  rcases hcell : gridGet g row col with _ | p
  · simp [hcell]
  · by_cases hcol : p.color = player <;> simp [hcell, hcol]


lemma coherent_spec {g : Grid} (hco : Coherent g) {r c : Nat} (hr : r < 8) (hc : c < 8)
    {p : Piece} (h : gridGet g r c = some p) : p.row = (r : Int) ∧ p.col = (c : Int) := by
  have hx := hco r hr c hc
  rw [h] at hx
  simpa using hx

/-- C1: mandatory capture law.  If any piece of the side has a capture
available, `get_all_moves` returns exactly the capture enumeration, its
length is the total capture count over the side's pieces, and every
returned move is a jump; otherwise it returns the regular enumeration and
every returned move is a one-step move. -/
theorem mandatory_capture_law (g : Grid) (player : Color) (hco : Coherent g) :
    (has_capture g player →
      get_all_moves g player = side_capture_moves g player ∧
      (get_all_moves g player).length = total_capture_count g player ∧
      ∀ m ∈ get_all_moves g player, (m.2.1 - m.1.1).natAbs = 2) ∧
    (¬ has_capture g player →
      get_all_moves g player = side_regular_moves g player ∧
      ∀ m ∈ get_all_moves g player, (m.2.1 - m.1.1).natAbs = 1) := by
  constructor
  · intro hcap
    have hne : side_capture_moves g player ≠ [] := by
      rw [ne_eq, side_capture_moves_eq_nil]
      exact not_not_intro hcap
    have hga : get_all_moves g player = side_capture_moves g player := by
      unfold get_all_moves
      rw [if_neg hne]
    refine ⟨hga, by rw [hga, length_side_capture_moves], ?_⟩
    intro m hm
    rw [hga] at hm
    obtain ⟨r, hr, c, hc, p, hcell, hcol, h1, h2⟩ := mem_side_capture_moves.mp hm
    obtain ⟨d, hd, hb1, hen, hb2, hemp, heq⟩ := mem_get_capture_moves.mp h2
    obtain ⟨hrow, _⟩ := coherent_spec hco hr hc hcell
    obtain ⟨hd1, _⟩ := mem_piece_directions hd
    have hm21 : m.2.1 = p.row + d.1 + d.1 := by rw [heq]
    have hm11 : m.1.1 = (r : Int) := by rw [h1]
    rw [hm21, hm11, hrow]
    omega
  · intro hcap
    have hnil : side_capture_moves g player = [] := side_capture_moves_eq_nil.mpr hcap
    have hga : get_all_moves g player = side_regular_moves g player := by
      unfold get_all_moves
      rw [if_pos hnil]
    refine ⟨hga, ?_⟩
    intro m hm
    rw [hga] at hm
    obtain ⟨r, hr, c, hc, p, hcell, hcol, h1, h2⟩ := mem_side_regular_moves.mp hm
    obtain ⟨d, hd, hb1, hcase⟩ := mem_get_possible_moves.mp h2
    obtain ⟨hrow, _⟩ := coherent_spec hco hr hc hcell
    obtain ⟨hd1, _⟩ := mem_piece_directions hd
    rcases hcase with ⟨hemp, heq⟩ | ⟨target, hge, hne2, hb2, hemp, heq⟩
    · have hm21 : m.2.1 = p.row + d.1 := by rw [heq]
      have hm11 : m.1.1 = (r : Int) := by rw [h1]
      rw [hm21, hm11, hrow]
      omega
    · exfalso
      apply hcap
      refine ⟨r, hr, c, hc, p, hcell, hcol, fun hnil2 => ?_⟩
      have hmem : m.2 ∈ get_capture_moves p g :=
        mem_get_capture_moves.mpr ⟨d, hd, hb1, ⟨target, hge, hne2⟩, hb2, hemp, heq⟩
      rw [hnil2] at hmem
      simp at hmem

/-- C1 witness: on a board where red man (5,2) can jump blue man (4,3),
the mandatory-capture branch applies. -/
theorem mandatory_capture_law_witness :
    get_all_moves capture_grid Color.red = side_capture_moves capture_grid Color.red ∧
    (get_all_moves capture_grid Color.red).length = total_capture_count capture_grid Color.red ∧
    ∀ m ∈ get_all_moves capture_grid Color.red, (m.2.1 - m.1.1).natAbs = 2 :=
  (mandatory_capture_law capture_grid Color.red (by decide)).1
    ⟨5, by omega, 2, by omega, ⟨Color.red, 5, 2, false⟩, by decide, rfl, by decide⟩


/-! ## The legality predicate (C4) -/

lemma get_piece_eq_gridGet {g : Grid} {r c : Int} (h1 : 0 ≤ r) (h2 : r < 8) (h3 : 0 ≤ c)
    (h4 : c < 8) : get_piece g r c = gridGet g r.toNat c.toNat := by
  unfold get_piece
  rw [if_pos ⟨h1, h2, h3, h4⟩]

/-- The claim's description of `is_valid_move`, written from the spec's
words: both squares in bounds, the source holds a piece of the side, the
destination is empty, the move is diagonal, and either distance 1 in the
piece's allowed direction (forward only for men, any diagonal for kings)
or distance 2 with an opposing piece on the midpoint square — with no
direction restriction in the distance-2 case. -/
def ValidMoveSpec (g : Grid) (from_pos to_pos : Int × Int) (player : Color) : Prop :=
  (0 ≤ from_pos.1 ∧ from_pos.1 < 8 ∧ 0 ≤ from_pos.2 ∧ from_pos.2 < 8) ∧
  (0 ≤ to_pos.1 ∧ to_pos.1 < 8 ∧ 0 ≤ to_pos.2 ∧ to_pos.2 < 8) ∧
  ∃ piece, gridGet g from_pos.1.toNat from_pos.2.toNat = some piece ∧
    piece.color = player ∧
    gridGet g to_pos.1.toNat to_pos.2.toNat = none ∧
    (to_pos.1 - from_pos.1).natAbs = (to_pos.2 - from_pos.2).natAbs ∧
    (((to_pos.1 - from_pos.1).natAbs = 1 ∧
        (piece.is_king = true ∨ (piece.color = Color.red ∧ to_pos.1 < from_pos.1) ∨
          (piece.color = Color.blue ∧ from_pos.1 < to_pos.1))) ∨
      ((to_pos.1 - from_pos.1).natAbs = 2 ∧
        ∃ mid, gridGet g ((from_pos.1 + to_pos.1).fdiv 2).toNat
            ((from_pos.2 + to_pos.2).fdiv 2).toNat = some mid ∧ mid.color ≠ player))

lemma valid_move_iff (g : Grid) (fp tp : Int × Int) (player : Color) :
    is_valid_move g fp tp player = true ↔ ValidMoveSpec g fp tp player := by
  unfold is_valid_move ValidMoveSpec
  by_cases hb : 0 ≤ fp.1 ∧ fp.1 < 8 ∧ 0 ≤ fp.2 ∧ fp.2 < 8 ∧
      0 ≤ tp.1 ∧ tp.1 < 8 ∧ 0 ≤ tp.2 ∧ tp.2 < 8
  case neg =>
    rw [if_pos hb]
    simp only [Bool.false_eq_true, false_iff]
    rintro ⟨h1, h2, _⟩
    exact hb ⟨h1.1, h1.2.1, h1.2.2.1, h1.2.2.2, h2.1, h2.2.1, h2.2.2.1, h2.2.2.2⟩
  case pos =>
    rw [if_neg (not_not_intro hb)]
    obtain ⟨hf1, hf2, hf3, hf4, ht1, ht2, ht3, ht4⟩ := hb
    rcases hcell : gridGet g fp.1.toNat fp.2.toNat with _ | piece
    · dsimp only
      simp only [Bool.false_eq_true, false_iff]
      rintro ⟨_, _, piece2, hcell2, _⟩
      simp at hcell2
    · dsimp only
      by_cases hcolor : piece.color ≠ player
      · rw [if_pos hcolor]
        simp only [Bool.false_eq_true, false_iff]
        rintro ⟨_, _, piece2, hcell2, hcol2, _⟩
        injection hcell2 with hpe
        exact hcolor (hpe ▸ hcol2)
      · rw [if_neg hcolor]
        have hcoleq : piece.color = player := not_ne_iff.mp hcolor
        by_cases hdest : (gridGet g tp.1.toNat tp.2.toNat).isSome
        · rw [if_pos hdest]
          simp only [Bool.false_eq_true, false_iff]
          rintro ⟨_, _, piece2, _, _, hdest2, _⟩
          rw [hdest2] at hdest
          simp at hdest
        · rw [if_neg hdest]
          have hdest' : gridGet g tp.1.toNat tp.2.toNat = none :=
            Option.not_isSome_iff_eq_none.mp hdest
          by_cases hdiag : (tp.1 - fp.1).natAbs ≠ (tp.2 - fp.2).natAbs
          · rw [if_pos hdiag]
            simp only [Bool.false_eq_true, false_iff]
            rintro ⟨_, _, piece2, _, _, _, hdiag2, _⟩
            exact hdiag hdiag2
          · rw [if_neg hdiag]
            rw [not_not] at hdiag
            by_cases hd1 : (tp.1 - fp.1).natAbs = 1
            · rw [if_pos hd1]
              constructor
              · intro h
                refine ⟨⟨hf1, hf2, hf3, hf4⟩, ⟨ht1, ht2, ht3, ht4⟩, piece, rfl, hcoleq,
                  hdest', hdiag, Or.inl ⟨hd1, ?_⟩⟩
                by_cases hk : piece.is_king = true
                · exact Or.inl hk
                · rw [if_neg hk] at h
                  by_cases hred : piece.color = Color.red ∧ tp.1 < fp.1
                  · exact Or.inr (Or.inl hred)
                  · rw [if_neg hred] at h
                    by_cases hblue : piece.color = Color.blue ∧ fp.1 < tp.1
                    · exact Or.inr (Or.inr hblue)
                    · rw [if_neg hblue] at h
                      exact absurd h (by simp)
              · rintro ⟨_, _, piece2, hcell2, _, _, _, hdisj⟩
                injection hcell2 with hpe
                subst hpe
                rcases hdisj with ⟨_, halt⟩ | ⟨hd2, _⟩
                · rcases halt with hk | ⟨hr2, hlt⟩ | ⟨hb2, hlt⟩
                  · rw [if_pos hk]
                  · by_cases hk : piece.is_king = true
                    · rw [if_pos hk]
                    · rw [if_neg hk, if_pos ⟨hr2, hlt⟩]
                  · by_cases hk : piece.is_king = true
                    · rw [if_pos hk]
                    · rw [if_neg hk,
                        if_neg (fun hx : piece.color = Color.red ∧ tp.1 < fp.1 =>
                          by rw [hb2] at hx; exact absurd hx.1 (by decide)),
                        if_pos ⟨hb2, hlt⟩]
                · omega
            · rw [if_neg hd1]
              by_cases hd2 : (tp.1 - fp.1).natAbs = 2
              · rw [if_pos hd2]
                rcases hmid : gridGet g ((fp.1 + tp.1).fdiv 2).toNat
                    ((fp.2 + tp.2).fdiv 2).toNat with _ | cp
                · simp only [Bool.false_eq_true, false_iff]
                  rintro ⟨_, _, piece2, _, _, _, _, hdisj⟩
                  rcases hdisj with ⟨h1x, _⟩ | ⟨_, mid, hmid2, _⟩
                  · exact hd1 h1x
                  · simp at hmid2
                · constructor
                  · intro h
                    exact ⟨⟨hf1, hf2, hf3, hf4⟩, ⟨ht1, ht2, ht3, ht4⟩, piece, rfl, hcoleq,
                      hdest', hdiag, Or.inr ⟨hd2, cp, rfl, of_decide_eq_true h⟩⟩
                  · rintro ⟨_, _, piece2, _, _, _, _, hdisj⟩
                    rcases hdisj with ⟨h1x, _⟩ | ⟨_, mid, hmid2, hmidcol⟩
                    · exact absurd h1x hd1
                    · injection hmid2 with hme
                      subst hme
                      exact decide_eq_true hmidcol
              · rw [if_neg hd2]
                simp only [Bool.false_eq_true, false_iff]
                rintro ⟨_, _, piece2, _, _, _, _, hdisj⟩
                rcases hdisj with ⟨h1x, _⟩ | ⟨h2x, _⟩
                · exact hd1 h1x
                · exact hd2 h2x

/-- C4: `is_valid_move` agrees exactly with the claim's description: both
squares in bounds, source holds the side's piece, destination empty,
diagonal, and distance 1 in the piece's allowed direction or distance 2
with an opposing piece on the midpoint (no direction restriction for the
distance-2 case). -/
theorem is_valid_move_spec_equiv (g : Grid) (fp tp : Int × Int) (player : Color) :
    is_valid_move g fp tp player = true ↔ ValidMoveSpec g fp tp player :=
  valid_move_iff g fp tp player


/-- C10: every move produced by `get_all_moves` passes `is_valid_move`,
for boards satisfying the coherence invariant (stored pieces carry their
cell coordinates). -/
theorem generated_moves_valid (g : Grid) (player : Color) (hco : Coherent g) :
    ∀ m ∈ get_all_moves g player, is_valid_move g m.1 m.2 player = true := by
  intro m hm
  rw [valid_move_iff]
  have hmem : ∃ r, r < 8 ∧ ∃ c, c < 8 ∧ ∃ p, gridGet g r c = some p ∧ p.color = player ∧
      m.1 = ((r : Int), (c : Int)) ∧
      (m.2 ∈ get_capture_moves p g ∨ m.2 ∈ get_possible_moves p g) := by
    unfold get_all_moves at hm
    by_cases hnil : side_capture_moves g player = []
    · rw [if_pos hnil] at hm
      obtain ⟨r, hr, c, hc, p, h1, h2, h3, h4⟩ := mem_side_regular_moves.mp hm
      exact ⟨r, hr, c, hc, p, h1, h2, h3, Or.inr h4⟩
    · rw [if_neg hnil] at hm
      obtain ⟨r, hr, c, hc, p, h1, h2, h3, h4⟩ := mem_side_capture_moves.mp hm
      exact ⟨r, hr, c, hc, p, h1, h2, h3, Or.inl h4⟩
  obtain ⟨r, hr, c, hc, p, hcell, hcol, h1, hgen⟩ := hmem
  obtain ⟨hrow, hcolmn⟩ := coherent_spec hco hr hc hcell
  have hjump : m.2 ∈ get_capture_moves p g → ValidMoveSpec g m.1 m.2 player := by
    intro hcap
    obtain ⟨d, hd, hb1, ⟨enemy, hge, hne⟩, hb2, hemp, heq⟩ := mem_get_capture_moves.mp hcap
    obtain ⟨hd1, hd2⟩ := mem_piece_directions hd
    rw [h1, heq]
    unfold ValidMoveSpec
    dsimp only
    have hmr : ((r : Int) + (p.row + d.1 + d.1)).fdiv 2 = p.row + d.1 := by
      rw [hrow, show ((r : Int) + ((r : Int) + d.1 + d.1)) = 2 * ((r : Int) + d.1) by ring,
        Int.mul_fdiv_cancel_left _ (by norm_num), ← hrow]
    have hmc : ((c : Int) + (p.col + d.2 + d.2)).fdiv 2 = p.col + d.2 := by
      rw [hcolmn, show ((c : Int) + ((c : Int) + d.2 + d.2)) = 2 * ((c : Int) + d.2) by ring,
        Int.mul_fdiv_cancel_left _ (by norm_num), ← hcolmn]
    refine ⟨⟨Int.natCast_nonneg r, by exact_mod_cast hr, Int.natCast_nonneg c,
        by exact_mod_cast hc⟩,
      ⟨hb2.1, hb2.2.1, hb2.2.2.1, hb2.2.2.2⟩, p, ?_, hcol, ?_, ?_,
      Or.inr ⟨?_, enemy, ?_, ?_⟩⟩
    · exact_mod_cast hcell
    · rw [← get_piece_eq_gridGet hb2.1 hb2.2.1 hb2.2.2.1 hb2.2.2.2]
      exact hemp
    · rw [hrow, hcolmn]
      omega
    · rw [hrow]
      omega
    · rw [hmr, hmc, ← get_piece_eq_gridGet hb1.1 hb1.2.1 hb1.2.2.1 hb1.2.2.2]
      exact hge
    · rw [← hcol]
      exact hne
  rcases hgen with hcap | hpos
  · exact hjump hcap
  · obtain ⟨d, hd, hb1, hcase⟩ := mem_get_possible_moves.mp hpos
    rcases hcase with ⟨hemp, heq⟩ | ⟨enemy, hge, hne, hb2, hemp, heq⟩
    · obtain ⟨hd1, hd2⟩ := mem_piece_directions hd
      rw [h1, heq]
      unfold ValidMoveSpec
      dsimp only
      refine ⟨⟨Int.natCast_nonneg r, by exact_mod_cast hr, Int.natCast_nonneg c,
          by exact_mod_cast hc⟩,
        ⟨hb1.1, hb1.2.1, hb1.2.2.1, hb1.2.2.2⟩, p, ?_, hcol, ?_, ?_,
        Or.inl ⟨?_, ?_⟩⟩
      · exact_mod_cast hcell
      · rw [← get_piece_eq_gridGet hb1.1 hb1.2.1 hb1.2.2.1 hb1.2.2.2]
        exact hemp
      · rw [hrow, hcolmn]
        omega
      · rw [hrow]
        omega
      · by_cases hk : p.is_king = true
        · exact Or.inl hk
        · have hkf : p.is_king = false := by revert hk; cases p.is_king <;> simp
          obtain ⟨hfr, hfb⟩ := piece_directions_forward hd hkf
          rcases hc2 : p.color with _ | _
          · refine Or.inr (Or.inl ⟨rfl, ?_⟩)
            have := hfr hc2
            rw [hrow]
            omega
          · refine Or.inr (Or.inr ⟨rfl, ?_⟩)
            have := hfb hc2
            rw [hrow]
            omega
    · exact hjump (mem_get_capture_moves.mpr ⟨d, hd, hb1, ⟨enemy, hge, hne⟩, hb2, hemp, heq⟩)

/-- C10 witness: every opening move of red on the initial board is valid
per `is_valid_move`; instantiated at the move (5,0)→(4,1). -/
theorem generated_moves_valid_witness :
    is_valid_move setup_initial_position (5, 0) (4, 1) Color.red = true :=
  generated_moves_valid setup_initial_position Color.red (by decide) ((5, 0), (4, 1))
    (by decide)


/-! ## Classifier lemmas (C6, C7) -/

lemma insort_by_length (before : MoveEval → MoveEval → Bool) (x : MoveEval) :
    ∀ l : List MoveEval, (insort_by before x l).length = l.length + 1 := by
  intro l
  induction l with
  | nil => rfl
  | cons y rest ih =>
    simp only [insort_by]
    split_ifs
    · simp [ih]
    · simp

lemma sort_moves_length (before : MoveEval → MoveEval → Bool) :
    ∀ l : List MoveEval, (sort_moves before l).length = l.length := by
  intro l
  induction l with
  | nil => rfl
  | cons x rest ih =>
    simp only [sort_moves]
    rw [insort_by_length]
    simp [ih]

lemma eval_moves_loop_length {f : Move → Option MoveEval} :
    ∀ {l : List Move} {l2 : List MoveEval}, eval_moves_loop f l = some l2 →
      l2.length = l.length := by
  intro l
  induction l with
  | nil =>
    intro l2 h
    simp only [eval_moves_loop, Option.some.injEq] at h
    rw [← h]
    rfl
  | cons m rest ih =>
    intro l2 h
    simp only [eval_moves_loop] at h
    rcases hf : f m with _ | e
    · rw [hf] at h; simp at h
    · rw [hf] at h
      rcases hrec : eval_moves_loop f rest with _ | l3
      · rw [hrec] at h; simp at h
      · rw [hrec] at h
        simp only [Option.map_some', Option.some.injEq] at h
        rw [← h]
        simp [ih hrec]

lemma get_all_move_evaluations_length {fuel : Nat} {aidepth : Int} {g : Grid}
    {player : Color} {evs : List MoveEval}
    (h : get_all_move_evaluations fuel aidepth g player = some evs) :
    evs.length = (get_all_moves g player).length := by
  unfold get_all_move_evaluations at h
  rcases hloop : eval_moves_loop
      (fun move => (get_move_evaluation fuel aidepth g move player).map fun s =>
        (⟨move.1, move.2, s⟩ : MoveEval)) (get_all_moves g player) with _ | l
  · rw [hloop] at h; simp at h
  · rw [hloop] at h
    simp only [Option.map_some', Option.some.injEq] at h
    split_ifs at h <;> rw [← h, sort_moves_length] <;> exact eval_moves_loop_length hloop

set_option maxHeartbeats 4000000 in
/-- C6 counterexample: on a board with a single legal red move (hence a
one-entry evaluation list), a played move that is not that single move is
classified as a blunder with loss 1000, not as best with zero loss. -/
theorem forced_move_counterexample :
    (get_all_move_evaluations 1 1 one_red_grid Color.red).map List.length = some 1 ∧
    (analyze_move 1 1 one_red_grid (0, 0) (1, 1) Color.red).map
      (fun r => r.classification) = some Classification.blunder ∧
    (analyze_move 1 1 one_red_grid (0, 0) (1, 1) Color.red).map
      (fun r => r.score_difference) = some 1000 := by
  refine ⟨by decide, by decide, by decide⟩

/-- C6 (amended): the classifier returns `best` with zero loss when the
side has no legal move at all, and when the evaluated list has exactly one
entry and the played move is that entry (a played move absent from the
list is classified blunder instead, see the invalid-move rule). -/
theorem forced_move_amended (fuel : Nat) (aidepth : Int) (g : Grid) (mf mt : Int × Int)
    (player : Color) :
    (get_all_moves g player = [] →
      analyze_move fuel aidepth g mf mt player =
        some ⟨Classification.best, 0, toE 0, toE 0, player, "Only move available", []⟩) ∧
    (∀ e : MoveEval, get_all_move_evaluations fuel aidepth g player = some [e] →
      e.efrom = mf → e.eto = mt →
      ∃ res, analyze_move fuel aidepth g mf mt player = some res ∧
        res.classification = Classification.best ∧ res.score_difference = 0) := by
  constructor
  · intro h
    unfold analyze_move
    rw [if_pos h]
  · intro e hevs hef het
    have hmoves : get_all_moves g player ≠ [] := by
      intro hnil
      have := get_all_move_evaluations_length hevs
      rw [hnil] at this
      simp at this
    unfold analyze_move
    rw [if_neg hmoves, hevs]
    simp only [Option.some_bind]
    have hfind : [e].find? (fun m => decide (m.efrom = mf ∧ m.eto = mt)) = some e := by
      simp [List.find?, hef, het]
    rw [hfind]
    dsimp only
    rw [if_pos rfl]
    exact ⟨_, rfl, rfl, rfl⟩

set_option maxHeartbeats 4000000 in
/-- C6 witness: on the single-red-piece board the one legal move (5,0)→(4,1)
is classified best with zero loss. -/
theorem forced_move_amended_witness :
    ∃ res, analyze_move 1 1 one_red_grid (5, 0) (4, 1) Color.red = some res ∧
      res.classification = Classification.best ∧ res.score_difference = 0 :=
  (forced_move_amended 1 1 one_red_grid (5, 0) (4, 1) Color.red).2
    ⟨(5, 0), (4, 1), toE 10000⟩ (by decide) rfl rfl

/-- C7: a played move that does not appear among the side's evaluated legal
moves (the side having at least one legal move and the evaluation having
completed) is classified blunder with sentinel loss 1000 and the
"Invalid move" rationale, and no exception is raised (the analyzer returns
a result). -/
theorem invalid_move_blunder (fuel : Nat) (aidepth : Int) (g : Grid) (mf mt : Int × Int)
    (player : Color) (evs : List MoveEval)
    (hne : get_all_moves g player ≠ [])
    (hevs : get_all_move_evaluations fuel aidepth g player = some evs)
    (hnotin : ∀ e ∈ evs, ¬ (e.efrom = mf ∧ e.eto = mt)) :
    ∃ res, analyze_move fuel aidepth g mf mt player = some res ∧
      res.classification = Classification.blunder ∧ res.score_difference = 1000 ∧
      res.description = "Invalid move" := by
  have hlen : evs.length = (get_all_moves g player).length := get_all_move_evaluations_length hevs
  have hevs_ne : evs ≠ [] := by
    intro h
    rw [h] at hlen
    simp only [List.length_nil] at hlen
    exact hne (List.length_eq_zero.mp hlen.symm)
  obtain ⟨b, rest, rfl⟩ := List.exists_cons_of_ne_nil hevs_ne
  unfold analyze_move
  rw [if_neg hne, hevs]
  simp only [Option.some_bind]
  have hfind : (b :: rest).find? (fun m => decide (m.efrom = mf ∧ m.eto = mt)) = none := by
    rw [List.find?_eq_none]
    intro x hx
    simpa using hnotin x hx
  rw [hfind]
  exact ⟨_, rfl, rfl, rfl, rfl⟩

set_option maxHeartbeats 4000000 in
/-- C7 witness: on the single-red-piece board, the played move (2,2)→(3,3)
is not among the legal moves and is reported as an invalid-move blunder. -/
theorem invalid_move_blunder_witness :
    ∃ res, analyze_move 1 1 one_red_grid (2, 2) (3, 3) Color.red = some res ∧
      res.classification = Classification.blunder ∧ res.score_difference = 1000 ∧
      res.description = "Invalid move" :=
  invalid_move_blunder 1 1 one_red_grid (2, 2) (3, 3) Color.red
    [⟨(5, 0), (4, 1), toE 10000⟩] (by decide) (by decide) (by decide)


/-! ## Search totality and preservation lemmas (C2) -/

lemma wf_promote_at {g : Grid} (hwf : WF g) (pos : Int × Int) : WF (promote_at g pos) := by
  unfold promote_at
  split_ifs with h
  · exact wf_gridSet hwf (by omega) _ _
  · exact hwf

lemma wf_king_if_reached {g : Grid} (hwf : WF g) (pos : Int × Int) (player : Color) :
    WF (king_if_reached g pos player) := by
  unfold king_if_reached
  rcases get_piece g pos.1 pos.2 with _ | p
  · exact hwf
  · dsimp only
    split_ifs
    · exact wf_promote_at hwf pos
    · exact hwf

lemma mem_get_all_moves_cases {g : Grid} {player : Color} {m : Move}
    (hm : m ∈ get_all_moves g player) :
    ∃ r, r < 8 ∧ ∃ c, c < 8 ∧ ∃ p, gridGet g r c = some p ∧ p.color = player ∧
      m.1 = ((r : Int), (c : Int)) ∧
      (m.2 ∈ get_capture_moves p g ∨ m.2 ∈ get_possible_moves p g) := by
  unfold get_all_moves at hm
  by_cases hnil : side_capture_moves g player = []
  · rw [if_pos hnil] at hm
    obtain ⟨r, hr, c, hc, p, h1, h2, h3, h4⟩ := mem_side_regular_moves.mp hm
    exact ⟨r, hr, c, hc, p, h1, h2, h3, Or.inr h4⟩
  · rw [if_neg hnil] at hm
    obtain ⟨r, hr, c, hc, p, h1, h2, h3, h4⟩ := mem_side_capture_moves.mp hm
    exact ⟨r, hr, c, hc, p, h1, h2, h3, Or.inl h4⟩

lemma get_all_moves_bounds {g : Grid} {player : Color} :
    ∀ m ∈ get_all_moves g player,
      0 ≤ m.1.1 ∧ m.1.1 < 8 ∧ 0 ≤ m.1.2 ∧ m.1.2 < 8 ∧
      0 ≤ m.2.1 ∧ m.2.1 < 8 ∧ 0 ≤ m.2.2 ∧ m.2.2 < 8 := by
  intro m hm
  obtain ⟨r, hr, c, hc, p, _, _, h1, hgen⟩ := mem_get_all_moves_cases hm
  have hf1 : m.1.1 = (r : Int) := by rw [h1]
  have hf2 : m.1.2 = (c : Int) := by rw [h1]
  rcases hgen with hcap | hpos
  · obtain ⟨d, _, _, _, hb2, _, heq⟩ := mem_get_capture_moves.mp hcap
    have e1 : m.2.1 = p.row + d.1 + d.1 := by rw [heq]
    have e2 : m.2.2 = p.col + d.2 + d.2 := by rw [heq]
    rw [hf1, hf2, e1, e2]
    obtain ⟨x1, x2, x3, x4⟩ := hb2
    omega
  · obtain ⟨d, _, hb1, hcase⟩ := mem_get_possible_moves.mp hpos
    rcases hcase with ⟨_, heq⟩ | ⟨_, _, _, hb2, _, heq⟩
    · have e1 : m.2.1 = p.row + d.1 := by rw [heq]
      have e2 : m.2.2 = p.col + d.2 := by rw [heq]
      rw [hf1, hf2, e1, e2]
      obtain ⟨x1, x2, x3, x4⟩ := hb1
      omega
    · have e1 : m.2.1 = p.row + d.1 + d.1 := by rw [heq]
      have e2 : m.2.2 = p.col + d.2 + d.2 := by rw [heq]
      rw [hf1, hf2, e1, e2]
      obtain ⟨x1, x2, x3, x4⟩ := hb2
      omega

lemma child_board_total {g : Grid} {player : Color} {m : Move} (hwf : WF g)
    (hm : m ∈ get_all_moves g player) :
    ∃ g2, child_board g player m = some g2 ∧ WF g2 := by
  obtain ⟨b1, b2, b3, b4, b5, b6, b7, b8⟩ := get_all_moves_bounds m hm
  obtain ⟨g1, cap, hmp, hwf1⟩ := move_piece_inb hwf m.1 m.2 b1 b2 b3 b4 b5 b6 b7 b8
  unfold child_board
  rw [hmp]
  simp only [Option.map_some']
  exact ⟨_, rfl, wf_king_if_reached hwf1 _ _⟩

lemma full_loop_max_total {fs : Grid → Option EInt} {g : Grid} :
    ∀ {ms : List Move},
      (∀ m ∈ ms, ∃ g2, child_board g Color.red m = some g2 ∧ ∃ fm, fs g2 = some fm) →
      ∀ B : EInt, ∃ F, full_loop_max fs g ms B = some F ∧ B ≤ F := by
  intro ms
  induction ms with
  | nil => exact fun _ B => ⟨B, rfl, le_refl B⟩
  | cons m rest ih =>
    intro h B
    obtain ⟨g2, hcb, fm, hfs⟩ := h m (by simp)
    obtain ⟨F, hF, hBF⟩ := ih (fun m2 hm2 => h m2 (by simp [hm2])) (max B fm)
    refine ⟨F, ?_, le_trans (le_max_left B fm) hBF⟩
    simp only [full_loop_max, hcb, hfs]
    exact hF

lemma full_loop_min_total {fs : Grid → Option EInt} {g : Grid} :
    ∀ {ms : List Move},
      (∀ m ∈ ms, ∃ g2, child_board g Color.blue m = some g2 ∧ ∃ fm, fs g2 = some fm) →
      ∀ B : EInt, ∃ F, full_loop_min fs g ms B = some F ∧ F ≤ B := by
  intro ms
  induction ms with
  | nil => exact fun _ B => ⟨B, rfl, le_refl B⟩
  | cons m rest ih =>
    intro h B
    obtain ⟨g2, hcb, fm, hfs⟩ := h m (by simp)
    obtain ⟨F, hF, hBF⟩ := ih (fun m2 hm2 => h m2 (by simp [hm2])) (min B fm)
    refine ⟨F, ?_, le_trans hBF (min_le_left B fm)⟩
    simp only [full_loop_min, hcb, hfs]
    exact hF


/-- Fail-soft invariants of the maximizing alpha-beta loop against the
unpruned fold: the pruned value bounds the full value through the window. -/
lemma ab_loop_max_spec (cs : Grid → EInt → EInt → Option (EInt × Nat))
    (fs : Grid → Option EInt) (g : Grid) :
    ∀ ms : List Move,
      (∀ m ∈ ms, ∃ g2, child_board g Color.red m = some g2 ∧
        ∃ fm, fs g2 = some fm ∧
          ∀ a b : EInt, a < b → ∃ s n, cs g2 a b = some (s, n) ∧
            (s ≤ a → fm ≤ s) ∧ (b ≤ s → s ≤ fm) ∧ (a < s → s < b → s = fm)) →
      ∀ (alpha beta mx B : EInt) (nodes : Nat),
        mx ≤ alpha → B ≤ mx → alpha < beta →
        ∃ v n F, ab_loop_max cs g ms alpha beta mx nodes = some (v, n) ∧
          full_loop_max fs g ms B = some F ∧
          mx ≤ v ∧ B ≤ F ∧
          (v ≤ alpha → F ≤ v) ∧ (beta ≤ v → v ≤ F) ∧ (alpha < v → v < beta → v = F) := by
  intro ms
  induction ms with
  | nil =>
    intro _ alpha beta mx B nodes hma hBm hab
    refine ⟨mx, nodes, B, rfl, rfl, le_refl _, le_refl _, fun _ => hBm, fun hbv => ?_,
      fun hav _ => ?_⟩
    · exact absurd hab (not_lt.mpr (hbv.trans hma))
    · exact absurd hav (not_lt.mpr hma)
  | cons m rest ih =>
    intro hchild alpha beta mx B nodes hma hBm hab
    obtain ⟨g2, hcb, fm, hfs, hcs⟩ := hchild m (by simp)
    obtain ⟨s, nn, hcseq, hT1, hT2, hT3⟩ := hcs alpha beta hab
    have hrest : ∀ m2 ∈ rest, ∃ g3, child_board g Color.red m2 = some g3 ∧
        ∃ fm2, fs g3 = some fm2 ∧
          ∀ a b : EInt, a < b → ∃ s2 n2, cs g3 a b = some (s2, n2) ∧
            (s2 ≤ a → fm2 ≤ s2) ∧ (b ≤ s2 → s2 ≤ fm2) ∧ (a < s2 → s2 < b → s2 = fm2) :=
      fun m2 hm2 => hchild m2 (by simp [hm2])
    by_cases hbr : beta ≤ max alpha s
    · have hsge : beta ≤ s := by
        rcases le_max_iff.mp hbr with h | h
        · exact absurd hab (not_lt.mpr h)
        · exact h
      have hmxs : mx ≤ s := hma.trans (hab.le.trans hsge)
      have hv : max mx s = s := max_eq_right hmxs
      obtain ⟨F, hF, hBF⟩ := full_loop_max_total
        (fun m2 hm2 => by
          obtain ⟨g3, hcb3, fm3, hfs3, _⟩ := hrest m2 hm2
          exact ⟨g3, hcb3, fm3, hfs3⟩)
        (max B fm)
      refine ⟨max mx s, nodes + nn, F, ?_, ?_, le_max_left mx s,
        le_trans (le_max_left B fm) hBF, ?_, ?_, ?_⟩
      · simp only [ab_loop_max, hcb, hcseq]
        rw [if_pos hbr]
      · simp only [full_loop_max, hcb, hfs]
        exact hF
      · intro hva
        exact absurd hab (not_lt.mpr ((hsge.trans (le_max_right mx s)).trans hva))
      · intro _
        rw [hv]
        exact le_trans (hT2 hsge) (le_trans (le_max_right B fm) hBF)
      · intro _ hvb
        rw [hv] at hvb
        exact absurd hvb (not_lt.mpr hsge)
    · push_neg at hbr
      have hs_lt : s < beta := lt_of_le_of_lt (le_max_right alpha s) hbr
      have hfm_le : fm ≤ max mx s := by
        by_cases hsa : s ≤ alpha
        · exact le_trans (hT1 hsa) (le_max_right mx s)
        · push_neg at hsa
          rw [← hT3 hsa hs_lt]
          exact le_max_right mx s
      obtain ⟨v, n, F, hloop, hfull, hmv, hBF, hC1, hC2, hC3⟩ :=
        ih hrest (max alpha s) beta (max mx s) (max B fm) (nodes + nn)
          (max_le_max hma (le_refl s))
          (max_le (hBm.trans (le_max_left mx s)) hfm_le) hbr
      refine ⟨v, n, F, ?_, ?_, le_trans (le_max_left mx s) hmv,
        le_trans (le_max_left B fm) hBF, ?_, hC2, ?_⟩
      · simp only [ab_loop_max, hcb, hcseq]
        rw [if_neg (not_le.mpr hbr)]
        exact hloop
      · simp only [full_loop_max, hcb, hfs]
        exact hfull
      · intro hva
        exact hC1 (hva.trans (le_max_left alpha s))
      · intro hav hvb
        by_cases hv2 : max alpha s < v
        · exact hC3 hv2 hvb
        · push_neg at hv2
          have hsv : s ≤ v := le_trans (le_max_right mx s) hmv
          have hvs : v ≤ s := by
            rcases le_max_iff.mp hv2 with h | h
            · exact absurd hav (not_lt.mpr h)
            · exact h
          have hveq : v = s := le_antisymm hvs hsv
          have hsfm : s = fm := hT3 (hveq ▸ hav) (hveq ▸ hvb)
          have hFv : F ≤ v := hC1 hv2
          have hvF : v ≤ F := by
            rw [hveq, hsfm]
            exact le_trans (le_max_right B fm) hBF
          exact le_antisymm hvF hFv

/-- Fail-soft invariants of the minimizing alpha-beta loop. -/
lemma ab_loop_min_spec (cs : Grid → EInt → EInt → Option (EInt × Nat))
    (fs : Grid → Option EInt) (g : Grid) :
    ∀ ms : List Move,
      (∀ m ∈ ms, ∃ g2, child_board g Color.blue m = some g2 ∧
        ∃ fm, fs g2 = some fm ∧
          ∀ a b : EInt, a < b → ∃ s n, cs g2 a b = some (s, n) ∧
            (s ≤ a → fm ≤ s) ∧ (b ≤ s → s ≤ fm) ∧ (a < s → s < b → s = fm)) →
      ∀ (alpha beta mn B : EInt) (nodes : Nat),
        beta ≤ mn → mn ≤ B → alpha < beta →
        ∃ v n F, ab_loop_min cs g ms alpha beta mn nodes = some (v, n) ∧
          full_loop_min fs g ms B = some F ∧
          v ≤ mn ∧ F ≤ B ∧
          (v ≤ alpha → F ≤ v) ∧ (beta ≤ v → v ≤ F) ∧ (alpha < v → v < beta → v = F) := by
  intro ms
  induction ms with
  | nil =>
    intro _ alpha beta mn B nodes hbm hmB hab
    refine ⟨mn, nodes, B, rfl, rfl, le_refl _, le_refl _, fun hva => ?_, fun _ => hmB,
      fun _ hvb => ?_⟩
    · exact absurd hab (not_lt.mpr (hbm.trans hva))
    · exact absurd hvb (not_lt.mpr hbm)
  | cons m rest ih =>
    intro hchild alpha beta mn B nodes hbm hmB hab
    obtain ⟨g2, hcb, fm, hfs, hcs⟩ := hchild m (by simp)
    obtain ⟨s, nn, hcseq, hT1, hT2, hT3⟩ := hcs alpha beta hab
    have hrest : ∀ m2 ∈ rest, ∃ g3, child_board g Color.blue m2 = some g3 ∧
        ∃ fm2, fs g3 = some fm2 ∧
          ∀ a b : EInt, a < b → ∃ s2 n2, cs g3 a b = some (s2, n2) ∧
            (s2 ≤ a → fm2 ≤ s2) ∧ (b ≤ s2 → s2 ≤ fm2) ∧ (a < s2 → s2 < b → s2 = fm2) :=
      fun m2 hm2 => hchild m2 (by simp [hm2])
    by_cases hbr : min beta s ≤ alpha
    · have hsle : s ≤ alpha := by
        rcases min_le_iff.mp hbr with h | h
        · exact absurd hab (not_lt.mpr h)
        · exact h
      have hsmn : s ≤ mn := (hsle.trans hab.le).trans hbm
      have hv : min mn s = s := min_eq_right hsmn
      obtain ⟨F, hF, hBF⟩ := full_loop_min_total
        (fun m2 hm2 => by
          obtain ⟨g3, hcb3, fm3, hfs3, _⟩ := hrest m2 hm2
          exact ⟨g3, hcb3, fm3, hfs3⟩)
        (min B fm)
      refine ⟨min mn s, nodes + nn, F, ?_, ?_, min_le_left mn s,
        le_trans hBF (min_le_left B fm), ?_, ?_, ?_⟩
      · simp only [ab_loop_min, hcb, hcseq]
        rw [if_pos hbr]
      · simp only [full_loop_min, hcb, hfs]
        exact hF
      · intro _
        rw [hv]
        exact le_trans (le_trans hBF (min_le_right B fm)) (hT1 hsle)
      · intro hbv
        exact absurd hab (not_lt.mpr (hbv.trans ((min_le_right mn s).trans hsle)))
      · intro hav hvb
        rw [hv] at hav
        exact absurd hav (not_lt.mpr hsle)
    · push_neg at hbr
      have hs_gt : alpha < s := lt_of_lt_of_le hbr (min_le_right beta s)
      have hfm_ge : min mn s ≤ fm := by
        by_cases hsb : beta ≤ s
        · exact le_trans (min_le_right mn s) (hT2 hsb)
        · push_neg at hsb
          rw [← hT3 hs_gt hsb]
          exact min_le_right mn s
      obtain ⟨v, n, F, hloop, hfull, hmv, hBF, hC1, hC2, hC3⟩ :=
        ih hrest alpha (min beta s) (min mn s) (min B fm) (nodes + nn)
          (min_le_min hbm (le_refl s))
          (le_min ((min_le_left mn s).trans hmB) hfm_ge) hbr
      refine ⟨v, n, F, ?_, ?_, le_trans hmv (min_le_left mn s),
        le_trans hBF (min_le_left B fm), hC1, ?_, ?_⟩
      · simp only [ab_loop_min, hcb, hcseq]
        rw [if_neg (not_le.mpr hbr)]
        exact hloop
      · simp only [full_loop_min, hcb, hfs]
        exact hfull
      · intro hbv
        exact hC2 ((min_le_left beta s).trans hbv)
      · intro hav hvb
        by_cases hv2 : v < min beta s
        · exact hC3 hav hv2
        · push_neg at hv2
          have hvs : v ≤ s := hmv.trans (min_le_right mn s)
          have hsv : s ≤ v := by
            rcases min_le_iff.mp hv2 with h | h
            · exact absurd hvb (not_lt.mpr h)
            · exact h
          have hveq : v = s := le_antisymm hvs hsv
          have hsfm : s = fm := hT3 hs_gt (hveq ▸ hvb)
          have hvF : v ≤ F := hC2 hv2
          have hFv : F ≤ v := by
            rw [hveq, hsfm]
            exact le_trans hBF (min_le_right B fm)
          exact le_antisymm hvF hFv


/-- Fail-soft correctness of `_minimax` against the unpruned full minimax,
by induction on the remaining (non-negative) depth. -/
lemma minimax_ab_spec : ∀ (d : Nat) (fuel : Nat), d < fuel → ∀ g : Grid, WF g →
    ∀ (player : Color) (alpha beta : EInt), alpha < beta →
    ∃ v n f, minimaxF fuel g (d : Int) player alpha beta = some (v, n) ∧
      full_minimax fuel g (d : Int) player = some f ∧
      (v ≤ alpha → f ≤ v) ∧ (beta ≤ v → v ≤ f) ∧ (alpha < v → v < beta → v = f) := by
  intro d
  induction d with
  | zero =>
    intro fuel hf g hwf player alpha beta hab
    obtain ⟨fuel2, rfl⟩ : ∃ f2, fuel = f2 + 1 := ⟨fuel - 1, by omega⟩
    refine ⟨toE (evaluate g Color.red), 1, toE (evaluate g Color.red), ?_, ?_,
      fun _ => le_refl _, fun _ => le_refl _, fun _ _ => rfl⟩
    · simp only [minimaxF, Nat.cast_zero]
      rw [if_pos (Or.inl trivial)]
    · simp only [full_minimax, Nat.cast_zero]
      rw [if_pos (Or.inl trivial)]
  | succ d ih =>
    intro fuel hf g hwf player alpha beta hab
    obtain ⟨fuel2, rfl⟩ : ∃ f2, fuel = f2 + 1 := ⟨fuel - 1, by omega⟩
    have hd2 : d < fuel2 := by omega
    by_cases hgo : is_game_over g = true
    · refine ⟨toE (evaluate g Color.red), 1, toE (evaluate g Color.red), ?_, ?_,
        fun _ => le_refl _, fun _ => le_refl _, fun _ _ => rfl⟩
      · simp only [minimaxF]
        rw [if_pos (Or.inr hgo)]
      · simp only [full_minimax]
        rw [if_pos (Or.inr hgo)]
    · have hcond : ¬(((d + 1 : Nat) : Int) = 0 ∨ is_game_over g = true) := by
        push_neg
        exact ⟨by omega, hgo⟩
      have heq : ((d + 1 : Nat) : Int) - 1 = ((d : Nat) : Int) := by push_cast; ring
      rcases hmoves : get_all_moves g player with _ | ⟨m0, rest⟩
      · refine ⟨toE (evaluate g Color.red), 1, toE (evaluate g Color.red), ?_, ?_,
          fun _ => le_refl _, fun _ => le_refl _, fun _ _ => rfl⟩
        · simp only [minimaxF]
          rw [if_neg hcond]
          simp only [hmoves]
        · simp only [full_minimax]
          rw [if_neg hcond]
          simp only [hmoves]
      · have hchild : ∀ m ∈ (m0 :: rest), ∃ g2, child_board g player m = some g2 ∧
            ∃ fm, full_minimax fuel2 g2 (d : Int) (opponent player) = some fm ∧
              ∀ a b : EInt, a < b →
                ∃ s n, minimaxF fuel2 g2 (d : Int) (opponent player) a b = some (s, n) ∧
                  (s ≤ a → fm ≤ s) ∧ (b ≤ s → s ≤ fm) ∧ (a < s → s < b → s = fm) := by
          intro m hm
          obtain ⟨g2, hcb, hwf2⟩ := child_board_total hwf (hmoves ▸ hm)
          obtain ⟨v0, n0, f, _, hfull, _⟩ :=
            ih fuel2 hd2 g2 hwf2 (opponent player) ⊥ ⊤ bot_lt_top
          refine ⟨g2, hcb, f, hfull, ?_⟩
          intro a b hab2
          obtain ⟨s, n, f2, hcs, hfull2, hX1, hX2, hX3⟩ :=
            ih fuel2 hd2 g2 hwf2 (opponent player) a b hab2
          rw [hfull] at hfull2
          obtain rfl : f2 = f := (Option.some.inj hfull2).symm
          exact ⟨s, n, hcs, hX1, hX2, hX3⟩
        rcases hpl : player with _ | _
        · -- red: maximizing
          have hchild2 : ∀ m ∈ (m0 :: rest), ∃ g2, child_board g Color.red m = some g2 ∧
              ∃ fm, full_minimax fuel2 g2 (d : Int) Color.blue = some fm ∧
                ∀ a b : EInt, a < b →
                  ∃ s n, minimaxF fuel2 g2 (d : Int) Color.blue a b = some (s, n) ∧
                    (s ≤ a → fm ≤ s) ∧ (b ≤ s → s ≤ fm) ∧ (a < s → s < b → s = fm) := by
            intro m hm
            have := hchild m hm
            rwa [hpl, show opponent Color.red = Color.blue from rfl] at this
          rw [hpl] at hmoves
          obtain ⟨v, n, F, hloop, hfullloop, _, _, hC1, hC2, hC3⟩ :=
            ab_loop_max_spec
              (fun g2 a b => minimaxF fuel2 g2 (((d + 1 : Nat) : Int) - 1) Color.blue a b)
              (fun g2 => full_minimax fuel2 g2 (((d + 1 : Nat) : Int) - 1) Color.blue) g
              (m0 :: rest)
              (by simpa only [heq] using hchild2)
              alpha beta ⊥ ⊥ 1 bot_le (le_refl _) hab
          refine ⟨v, n, F, ?_, ?_, hC1, hC2, hC3⟩
          · simp only [minimaxF]
            rw [if_neg hcond]
            simp only [hmoves]
            rw [if_pos trivial]
            exact hloop
          · simp only [full_minimax]
            rw [if_neg hcond]
            simp only [hmoves]
            rw [if_pos trivial]
            exact hfullloop
        · -- blue: minimizing
          have hchild2 : ∀ m ∈ (m0 :: rest), ∃ g2, child_board g Color.blue m = some g2 ∧
              ∃ fm, full_minimax fuel2 g2 (d : Int) Color.red = some fm ∧
                ∀ a b : EInt, a < b →
                  ∃ s n, minimaxF fuel2 g2 (d : Int) Color.red a b = some (s, n) ∧
                    (s ≤ a → fm ≤ s) ∧ (b ≤ s → s ≤ fm) ∧ (a < s → s < b → s = fm) := by
            intro m hm
            have := hchild m hm
            rwa [hpl, show opponent Color.blue = Color.red from rfl] at this
          rw [hpl] at hmoves
          obtain ⟨v, n, F, hloop, hfullloop, _, _, hC1, hC2, hC3⟩ :=
            ab_loop_min_spec
              (fun g2 a b => minimaxF fuel2 g2 (((d + 1 : Nat) : Int) - 1) Color.red a b)
              (fun g2 => full_minimax fuel2 g2 (((d + 1 : Nat) : Int) - 1) Color.red) g
              (m0 :: rest)
              (by simpa only [heq] using hchild2)
              alpha beta ⊤ ⊤ 1 le_top (le_refl _) hab
          refine ⟨v, n, F, ?_, ?_, hC1, hC2, hC3⟩
          · simp only [minimaxF]
            rw [if_neg hcond]
            simp only [hmoves]
            rw [if_neg (by decide : ¬ Color.blue = Color.red)]
            exact hloop
          · simp only [full_minimax]
            rw [if_neg hcond]
            simp only [hmoves]
            rw [if_neg (by decide : ¬ Color.blue = Color.red)]
            exact hfullloop

/-- A fail-soft triple over the full window forces exact agreement. -/
lemma triple_full_window {v f : EInt} (hT1 : v ≤ ⊥ → f ≤ v) (hT2 : ⊤ ≤ v → v ≤ f)
    (hT3 : ⊥ < v → v < ⊤ → v = f) : v = f := by
  by_cases h1 : v ≤ ⊥
  · have hv : v = ⊥ := le_bot_iff.mp h1
    have hf : f = ⊥ := le_bot_iff.mp (hv ▸ hT1 h1)
    rw [hv, hf]
  · by_cases h2 : ⊤ ≤ v
    · have hv : v = ⊤ := top_le_iff.mp h2
      have hf : f = ⊤ := top_le_iff.mp (hv ▸ hT2 h2)
      rw [hv, hf]
    · exact hT3 (not_le.mp h1) (not_le.mp h2)

lemma best_loop_congr {f1 f2 : Move → Option EInt} {player : Color} :
    ∀ {ms : List Move}, (∀ m ∈ ms, f1 m = f2 m) → ∀ (bs : EInt) (best : Option BestMove),
      best_loop f1 player ms bs best = best_loop f2 player ms bs best := by
  intro ms
  induction ms with
  | nil => intro _ bs best; rfl
  | cons m rest ih =>
    intro h bs best
    simp only [best_loop]
    rw [h m (by simp)]
    rcases f2 m with _ | s
    · rfl
    · dsimp only
      split_ifs <;> exact ih (fun m2 hm2 => h m2 (by simp [hm2])) _ _


/-- C2: alpha-beta equivalence.  With the full window, the pruning search
returns exactly the unpruned full minimax value at every non-negative
remaining depth, and `get_best_move` selects the same move (with the same
score) as the same scan driven by the unpruned search. -/
theorem alphabeta_equivalence (d fuel : Nat) (hdf : d < fuel) (g : Grid) (hwf : WF g)
    (player : Color) :
    Option.map Prod.fst (minimaxF fuel g (d : Int) player ⊥ ⊤) =
      full_minimax fuel g (d : Int) player ∧
    get_best_move fuel ((d : Int) + 1) g player =
      get_best_move_full fuel ((d : Int) + 1) g player := by
  constructor
  · obtain ⟨v, n, f, h1, h2, hT1, hT2, hT3⟩ :=
      minimax_ab_spec d fuel hdf g hwf player ⊥ ⊤ bot_lt_top
    rw [h1, h2, Option.map_some']
    rw [triple_full_window hT1 hT2 hT3]
  · unfold get_best_move get_best_move_full
    rcases hmoves : get_all_moves g player with _ | ⟨m0, rest⟩
    · rfl
    · rcases rest with _ | ⟨m1, rest2⟩
      · rfl
      · apply best_loop_congr
        intro m hm
        have hmem : m ∈ get_all_moves g player := by rw [hmoves]; exact hm
        obtain ⟨g2, hcb, hwf2⟩ := child_board_total hwf hmem
        rw [hcb]
        simp only [Option.some_bind]
        have heq : ((d : Nat) : Int) + 1 - 1 = ((d : Nat) : Int) := by ring
        rw [heq]
        obtain ⟨v, n, f, h1, h2, hT1, hT2, hT3⟩ :=
          minimax_ab_spec d fuel hdf g2 hwf2 (opponent player) ⊥ ⊤ bot_lt_top
        rw [h1, h2, Option.map_some']
        rw [triple_full_window hT1 hT2 hT3]

/-- C2 witness: pruning and full search agree at depth 1 (fuel 2) from the
initial position, both for the score and for the selected best move. -/
theorem alphabeta_equivalence_witness :
    Option.map Prod.fst (minimaxF 2 setup_initial_position ((1 : Nat) : Int) Color.red ⊥ ⊤) =
      full_minimax 2 setup_initial_position ((1 : Nat) : Int) Color.red ∧
    get_best_move 2 (((1 : Nat) : Int) + 1) setup_initial_position Color.red =
      get_best_move_full 2 (((1 : Nat) : Int) + 1) setup_initial_position Color.red :=
  alphabeta_equivalence 1 2 (by omega) setup_initial_position (by decide) Color.red

end Checkers
